import Mathlib

/-!
# Verification of the synfold fold-extraction, overlap-resolution and rendering engine

Shallow embedding of `crates/core/src/models.rs`, `crates/core/src/engine/renderer.rs`,
`crates/core/src/parsers/python.rs` and `crates/core/src/parsers/javascript.rs`
of the structural code-folding tool, together with theorems settling the
frozen claims about it.

Source buffers are modelled as `List Char`, one element per byte (the code
manipulates byte offsets; `ropey` char conversions are the identity on this
model).  Where the Rust code's UTF-8 byte slicing can fail on a char
boundary, a separate checked model with explicit `Char.utf8Size` widths is
used (`byteTake?`).
-/

/-- `FoldType` from models.rs: the fold-category enumeration. -/
inductive FoldType where
  | Block
  | Import
  | ArgList
  | ChainedCall
  | Literal
  | Comment
  | DocComment
  | ClassBody
  | ArrayLiteral
  | ObjectLiteral
deriving DecidableEq, Repr

/-- `PreviewMode` from models.rs. -/
inductive PreviewMode where
  | Minimal
  | Names
  | Flow
  | Source
deriving DecidableEq, Repr

/-- `FoldRegion` from models.rs: a candidate or accepted foldable span. -/
structure FoldRegion where
  fold_type : FoldType
  start_byte : Nat
  end_byte : Nat
  start_line : Nat
  end_line : Nat
  start_column : Nat
  end_column : Nat
  line_count : Nat
  preview : Option String
  is_folded : Bool
  children : List FoldRegion

/-- `FoldRegion::new` from models.rs: `line_count` is
`end_line - start_line + 1` when `end_line >= start_line`, else the
defensive floor `1`; `preview` starts out `None`. -/
def FoldRegion.new (fold_type : FoldType) (start_byte end_byte : Nat)
    (start_line end_line : Nat) (start_column end_column : Nat) : FoldRegion :=
  { fold_type := fold_type
    start_byte := start_byte
    end_byte := end_byte
    start_line := start_line
    end_line := end_line
    start_column := start_column
    end_column := end_column
    line_count := if start_line ≤ end_line then end_line - start_line + 1 else 1
    preview := none
    is_folded := false
    children := [] }

/-- `FoldRegion::contains` from models.rs. -/
def FoldRegion.contains (a b : FoldRegion) : Bool :=
  a.start_byte ≤ b.start_byte && b.end_byte ≤ a.end_byte

/-- `FoldRegion::overlaps` from models.rs. -/
def FoldRegion.overlaps (a b : FoldRegion) : Bool :=
  a.start_byte < b.end_byte && b.start_byte < a.end_byte

/-- `FoldFilter` from models.rs: one enable flag per fold category. -/
structure FoldFilter where
  fold_blocks : Bool
  fold_imports : Bool
  fold_arglists : Bool
  fold_chains : Bool
  fold_literals : Bool
  fold_comments : Bool
  fold_docs : Bool
  fold_classes : Bool
  fold_arrays : Bool
  fold_objects : Bool
deriving DecidableEq, Repr

/-- `FoldFilter::all` from models.rs. -/
def FoldFilter.all : FoldFilter :=
  ⟨true, true, true, true, true, true, true, true, true, true⟩

/-- `FoldFilter::should_fold` from models.rs. -/
def FoldFilter.should_fold (ff : FoldFilter) (t : FoldType) : Bool :=
  match t with
  | .Block => ff.fold_blocks
  | .Import => ff.fold_imports
  | .ArgList => ff.fold_arglists
  | .ChainedCall => ff.fold_chains
  | .Literal => ff.fold_literals
  | .Comment => ff.fold_comments
  | .DocComment => ff.fold_docs
  | .ClassBody => ff.fold_classes
  | .ArrayLiteral => ff.fold_arrays
  | .ObjectLiteral => ff.fold_objects

/-- Modelled from the spec: `ScanConfig` lives in `crates/core/src/config.rs`,
which is not part of the provided sources.  The spec (§3, FoldPolicy) and the
uses in renderer.rs / the parsers determine the three fields the engine
reads: the per-category filter, the minimum-line threshold, and the preview
mode. -/
structure ScanConfig where
  min_fold_lines : Nat
  fold_filter : FoldFilter
  preview_mode : PreviewMode
deriving DecidableEq, Repr

/-- Ordering used by `sort_by_key(|f| (f.start_byte, -(f.end_byte as i64)))`
in renderer.rs: ascending start byte, descending end byte. -/
def renderOrd (a b : FoldRegion) : Prop :=
  a.start_byte < b.start_byte ∨ (a.start_byte = b.start_byte ∧ b.end_byte ≤ a.end_byte)

instance : DecidableRel renderOrd := fun a b => by
  unfold renderOrd; infer_instance

instance : IsTotal FoldRegion renderOrd := by
  constructor
  intro a b
  unfold renderOrd
  omega

instance : IsTrans FoldRegion renderOrd := by
  constructor
  intro a b c hab hbc
  unfold renderOrd at *
  omega

/-- Ordering used by `result.sort_by_key(|f| f.start_byte)` in
`filter_overlapping_folds`. -/
def startOrd (a b : FoldRegion) : Prop :=
  a.start_byte ≤ b.start_byte

instance : DecidableRel startOrd := fun a b => by
  unfold startOrd; infer_instance

instance : IsTotal FoldRegion startOrd := by
  constructor
  intro a b
  unfold startOrd
  omega

instance : IsTrans FoldRegion startOrd := by
  constructor
  intro a b c hab hbc
  unfold startOrd at *
  omega

/-- One iteration of the loop body of `Renderer::filter_overlapping_folds`
(renderer.rs lines 120-133): a candidate already contained in an accepted
region is discarded; otherwise accepted regions the candidate contains are
removed and the candidate is appended. -/
def filterStep (result : List FoldRegion) (fold : FoldRegion) : List FoldRegion :=
  if result.any (fun f => f.contains fold) then
    result
  else
    result.filter (fun f => !(fold.contains f)) ++ [fold]

/-- `Renderer::filter_overlapping_folds` from renderer.rs: the loop above over
all candidates followed by the final `sort_by_key(|f| f.start_byte)`
(a stable sort, modelled by insertion sort). -/
def filterOverlappingFolds (folds : List FoldRegion) : List FoldRegion :=
  List.insertionSort startOrd (folds.foldl filterStep [])

/-- The subset of `termcolor::Color` used by renderer.rs. -/
inductive TermColor where
  | Blue
  | Green
  | Yellow
  | Magenta
  | Cyan
  | Red
  | White
deriving DecidableEq, Repr

/-- `Renderer::get_fold_color` from renderer.rs. -/
def getFoldColor (t : FoldType) : TermColor :=
  match t with
  | .Block => .Blue
  | .Import => .Green
  | .ArgList => .Yellow
  | .ChainedCall => .Magenta
  | .Literal => .Cyan
  | .Comment => .White
  | .DocComment => .Green
  | .ClassBody => .Blue
  | .ArrayLiteral => .Cyan
  | .ObjectLiteral => .Cyan

/-- `Renderer::format_placeholder` from renderer.rs: a missing preview falls
back to the literal `"..."`. -/
def formatPlaceholder (fold : FoldRegion) : String :=
  let preview := fold.preview.getD "..."
  if 1 < fold.line_count then
    "/* " ++ preview ++ " (" ++ toString fold.line_count ++ " lines) */"
  else
    "/* " ++ preview ++ " */"

/-- The `fg_color` match inside `Renderer::format_placeholder_ansi`
(`Color::White` falls through to the gray arm). -/
def fgColorCode (c : TermColor) : String :=
  match c with
  | .Blue => "\x1b[34m"
  | .Green => "\x1b[32m"
  | .Yellow => "\x1b[33m"
  | .Magenta => "\x1b[35m"
  | .Cyan => "\x1b[36m"
  | .Red => "\x1b[31m"
  | .White => "\x1b[90m"

/-- `Renderer::format_placeholder_ansi` from renderer.rs. -/
def formatPlaceholderAnsi (fold : FoldRegion) : String :=
  let preview := fold.preview.getD "..."
  let color := getFoldColor fold.fold_type
  let dim := "\x1b[2m"
  let reset := "\x1b[0m"
  if 1 < fold.line_count then
    dim ++ fgColorCode color ++ "/* " ++ preview ++ " (" ++
      toString fold.line_count ++ " lines) */" ++ reset
  else
    dim ++ fgColorCode color ++ "/* " ++ preview ++ " */" ++ reset

/-- The main loop of `Renderer::render` (renderer.rs lines 34-64).  The
source buffer is a byte sequence; `rope.slice(byte_to_char a .. byte_to_char b)`
is `(take b).drop a` on it.  `result` is the output buffer being pushed to,
`current_byte` the cursor. -/
def renderLoop (ff : FoldFilter) (source : List Char) :
    List FoldRegion → List Char → Nat → List Char
  | [], result, current_byte => result ++ source.drop current_byte
  | fold :: rest, result, current_byte =>
    if ff.should_fold fold.fold_type = false then
      renderLoop ff source rest result current_byte
    else if fold.start_byte < current_byte then
      renderLoop ff source rest result current_byte
    else
      renderLoop ff source rest
        ((if current_byte < fold.start_byte then
            result ++ (source.take fold.start_byte).drop current_byte
          else result) ++ (formatPlaceholder fold).toList)
        fold.end_byte

/-- `Renderer::render` from renderer.rs: early return on an empty fold list,
then sort by `(start_byte, -end_byte)`, prune overlaps, and run the loop. -/
def render (cfg : ScanConfig) (source : List Char) (folds : List FoldRegion) :
    List Char :=
  if folds.isEmpty then source
  else
    renderLoop cfg.fold_filter source
      (filterOverlappingFolds (List.insertionSort renderOrd folds)) [] 0

/-- Specification-side: the sub-list of regions the render loop actually
applies, per §4.4 steps 1-2 of the spec (policy-disabled regions are
skipped, as is any region starting before the cursor). -/
def appliedFolds (ff : FoldFilter) : Nat → List FoldRegion → List FoldRegion
  | _, [] => []
  | c, fold :: rest =>
    if ff.should_fold fold.fold_type = false then appliedFolds ff c rest
    else if fold.start_byte < c then appliedFolds ff c rest
    else fold :: appliedFolds ff fold.end_byte rest

/-- Specification-side decomposition of the rendered output, per §4.4 and the
byte-preservation property of §8: alternate verbatim slices of the input with
placeholders, then the verbatim tail. -/
def splice (source : List Char) : Nat → List FoldRegion → List Char
  | c, [] => source.drop c
  | c, fold :: rest =>
    (source.take fold.start_byte).drop c ++ (formatPlaceholder fold).toList ++
      splice source fold.end_byte rest

/-- A node of the concrete syntax tree produced by the external parsing
collaborator (§6 of the spec): kind string, byte range, row/column range,
children.  `fieldName` records the tree-sitter field label of the edge from
the parent, so that `child_by_field_name` can be modelled. -/
structure PNode where
  kind : String
  fieldName : Option String
  start_byte : Nat
  end_byte : Nat
  start_row : Nat
  end_row : Nat
  start_col : Nat
  end_col : Nat
  children : List PNode

theorem sizeOf_lt_of_mem_children {c n : PNode} (h : c ∈ n.children) :
    sizeOf c < sizeOf n := by
  cases n with
  | mk kind fieldName sb eb sr er sc ec children =>
    have h1 := List.sizeOf_lt_of_mem h
    simp only [PNode.mk.sizeOf_spec]
    simp only [PNode.children] at h1
    try omega

theorem sizeOf_children_lt (n : PNode) : sizeOf n.children < sizeOf n := by
  cases n with
  | mk kind fieldName sb eb sr er sc ec children => simp; try omega

/-- `node.child_by_field_name(s)` on the model. -/
def childByField (n : PNode) (s : String) : Option PNode :=
  n.children.find? (fun c => c.fieldName = some s)

theorem sizeOf_lt_of_childByField {n : PNode} {s : String} {c : PNode}
    (h : childByField n s = some c) : sizeOf c < sizeOf n :=
  sizeOf_lt_of_mem_children (List.mem_of_find?_eq_some h)

/-- `get_node_text`: `source[node.byte_range()]` on the byte-buffer model. -/
def nodeText (source : List Char) (n : PNode) : List Char :=
  (source.take n.end_byte).drop n.start_byte

/- Structural equality on tree nodes, modelling `tree_sitter::Node`
equality as used by `Some(&child) != module.as_ref()` in
`collect_import_modules` (distinct nodes of a real tree have distinct byte
ranges, so structural equality coincides with node identity there). -/
mutual
def pnodeBeq : PNode → PNode → Bool
  | ⟨k1, f1, sb1, eb1, sr1, er1, sc1, ec1, ch1⟩,
    ⟨k2, f2, sb2, eb2, sr2, er2, sc2, ec2, ch2⟩ =>
    k1 == k2 && f1 == f2 && sb1 == sb2 && eb1 == eb2 && sr1 == sr2 &&
      er1 == er2 && sc1 == sc2 && ec1 == ec2 && pnodeListBeq ch1 ch2
def pnodeListBeq : List PNode → List PNode → Bool
  | [], [] => true
  | x :: xs, y :: ys => pnodeBeq x y && pnodeListBeq xs ys
  | _, _ => false
end

/-- `Some(&child) != module.as_ref()` is false exactly when this holds. -/
def optNodeBeq (c : PNode) (m : Option PNode) : Bool :=
  match m with
  | some m => pnodeBeq c m
  | none => false

/-- Strip one trailing carriage return, as `str::lines` does for each
`\r\n`-terminated line. -/
def stripCr (l : List Char) : List Char :=
  if l.getLast? = some '\r' then l.dropLast else l

/-- Worker for `rustLines`: `cur` is the reversed current line. -/
def rustLinesGo : List Char → List Char → List (List Char)
  | [], cur => [cur.reverse]
  | c :: rest, cur =>
    if c = '\n' then
      stripCr cur.reverse :: (if rest.isEmpty then [] else rustLinesGo rest [])
    else rustLinesGo rest (c :: cur)

/-- `str::lines` on the model: split at `\n` (stripping a preceding `\r`),
no trailing empty line for a trailing newline, empty input gives no lines. -/
def rustLines (s : List Char) : List (List Char) :=
  match s with
  | [] => []
  | _ => rustLinesGo s []

/-- `text.lines().next().unwrap_or("")`. -/
def firstLine (s : List Char) : List Char :=
  (rustLines s).headD []

/-- `str::trim` on the model: whitespace stripped from both ends. -/
def trimChars (l : List Char) : List Char :=
  ((l.dropWhile Char.isWhitespace).reverse.dropWhile Char.isWhitespace).reverse

/-- `str::trim_matches(c)`: all leading and trailing occurrences of `c`
removed. -/
def stripCharEnds (c : Char) (l : List Char) : List Char :=
  ((l.dropWhile (· = c)).reverse.dropWhile (· = c)).reverse

/-- `str::contains(pat)`: substring test. -/
def strContainsSub (hay pat : String) : Bool :=
  (List.range (hay.toList.length + 1)).any
    (fun i => pat.toList.isPrefixOf (hay.toList.drop i))

/-- Worker for `dedupFirstSeen`; models the `HashSet::insert`-based
`retain` loop of `extract_control_flow` with the seen-set as a list. -/
def dedupFirstSeenGo (seen : List String) : List String → List String
  | [] => []
  | x :: xs =>
    if x ∈ seen then dedupFirstSeenGo seen xs
    else x :: dedupFirstSeenGo (x :: seen) xs

/-- Deduplicate preserving first-seen encounter order (the
`seen.insert`-based `retain` in `extract_control_flow`). -/
def dedupFirstSeen (l : List String) : List String :=
  dedupFirstSeenGo [] l

/-- The node-kind match of `PythonParser::collect_control_flow_recursive`. -/
def pythonFlowKeyword (kind : String) : List String :=
  match kind with
  | "if_statement" => ["if"]
  | "for_statement" => ["for"]
  | "while_statement" => ["while"]
  | "try_statement" => ["try"]
  | "with_statement" => ["with"]
  | "match_statement" => ["match"]
  | "return_statement" => ["return"]
  | "yield" => ["yield"]
  | "raise_statement" => ["raise"]
  | "assert_statement" => ["assert"]
  | "await" => ["await"]
  | _ => []

/-- The recursion guard of `collect_control_flow_recursive`: nested function
and class bodies are not descended into. -/
def pythonFlowStop (kind : String) : Bool :=
  kind = "function_definition" || kind = "async_function_definition" ||
    kind = "class_definition"

mutual
def pythonCollectFlow (n : PNode) : List String :=
  pythonFlowKeyword n.kind ++
    (if pythonFlowStop n.kind then [] else pythonCollectFlowList n.children)
termination_by sizeOf n
decreasing_by exact sizeOf_children_lt n
def pythonCollectFlowList : List PNode → List String
  | [] => []
  | c :: cs => pythonCollectFlow c ++ pythonCollectFlowList cs
termination_by l => sizeOf l
decreasing_by all_goals (simp; try omega)
end

/-- `PythonParser::extract_control_flow`: collect keywords, then deduplicate
preserving order. -/
def pythonExtractControlFlow (body : PNode) : List String :=
  dedupFirstSeen (pythonCollectFlow body)

/-- `PythonParser::get_function_signature`: text from the node's start to the
first `:` anywhere in the remaining source, trimmed; falling back to the
first line of the node's text. -/
def getFunctionSignature (source : List Char) (n : PNode) : String :=
  let text := source.drop n.start_byte
  match text.findIdx? (· = ':') with
  | some i => String.mk (trimChars (text.take i))
  | none => String.mk (firstLine (nodeText source n))

/-- `PythonParser::get_class_signature` (same computation as the function
signature). -/
def getClassSignature (source : List Char) (n : PNode) : String :=
  let text := source.drop n.start_byte
  match text.findIdx? (· = ':') with
  | some i => String.mk (trimChars (text.take i))
  | none => String.mk (firstLine (nodeText source n))

/-- `PythonParser::generate_function_preview`. -/
def pythonGenerateFunctionPreview (source : List Char) (node body : PNode)
    (mode : PreviewMode) : String :=
  let signature := getFunctionSignature source node
  match mode with
  | .Minimal => signature
  | .Names => signature
  | .Flow =>
    let flow := pythonExtractControlFlow body
    if flow.isEmpty then signature
    else signature ++ " -> " ++ String.intercalate "/" flow
  | .Source =>
    let text := nodeText source node
    String.mk ((List.intercalate [' '] ((rustLines text).take 2)).take 80)

/-- The chain-walking loop of `PythonParser::detect_chain`: follow
`call → attribute(function) → object` leftward, counting calls. -/
def pythonChainDepth (n : PNode) : Nat :=
  if n.kind = "call" then
    match h : childByField n "function" with
    | some func =>
      if func.kind = "attribute" then
        match h2 : childByField func "object" with
        | some obj => 1 + pythonChainDepth obj
        | none => 1
      else 1
    | none => 1
  else 0
termination_by sizeOf n
decreasing_by
  have hf := sizeOf_lt_of_childByField h
  have ho := sizeOf_lt_of_childByField h2
  omega

/-- `PythonParser::detect_chain`: only chains of depth ≥ 3 spanning more
than one line are folded; the preview ignores the preview mode. -/
def pythonDetectChain (n : PNode) : Option FoldRegion :=
  let depth := pythonChainDepth n
  if 3 ≤ depth && decide (n.start_row < n.end_row) then
    some { FoldRegion.new .ChainedCall n.start_byte n.end_byte
             (n.start_row + 1) (n.end_row + 1) n.start_col n.end_col with
           preview := some ("...chain (" ++ toString depth ++ " calls)") }
  else none

mutual
def pythonChainRegions (fc : Bool) (n : PNode) : List FoldRegion :=
  (if fc && n.kind = "call" then (pythonDetectChain n).toList else []) ++
    pythonChainRegionsList fc n.children
termination_by sizeOf n
decreasing_by exact sizeOf_children_lt n
def pythonChainRegionsList (fc : Bool) : List PNode → List FoldRegion
  | [] => []
  | c :: cs => pythonChainRegions fc c ++ pythonChainRegionsList fc cs
termination_by l => sizeOf l
decreasing_by all_goals (simp; try omega)
end

/-- `"import_statement" | "import_from_statement"`, the Python import kinds. -/
def isPyImport (kind : String) : Bool :=
  kind = "import_statement" || kind = "import_from_statement"

/-- The kinds the backwards walk in the Python import arm steps over
(`ps.kind() == "comment" || ps.kind().is_empty()`). -/
def pyPrevSkip (kind : String) : Bool :=
  kind = "comment" || kind = ""

/-- The backwards sibling walk of the `import_statement` arm of
`PythonParser::traverse_node` (lines 99-124): the node starts a run iff
walking back over comments/empty kinds reaches a non-import or the start. -/
def pyIsFirst : List PNode → Bool
  | [] => true
  | p :: ps =>
    if isPyImport p.kind then false
    else if pyPrevSkip p.kind then pyIsFirst ps
    else true

/-- The forward walk of `PythonParser::collect_import_block`: extend the run
over imports, step over comments, stop at anything else; returns the last
statement seen and the number of imports. -/
def pythonCollectRun : List PNode → PNode → Nat → PNode × Nat
  | [], e, c => (e, c)
  | ns :: rest, e, c =>
    if isPyImport ns.kind then pythonCollectRun rest ns (c + 1)
    else if ns.kind = "comment" then pythonCollectRun rest e c
    else (e, c)

/-- The leading-dot counting loop for relative `from`-imports in
`collect_import_modules`: dots are counted, `import`/`from` tokens are
stepped over, anything else ends the count. -/
def pyCountDots : List PNode → Nat
  | [] => 0
  | c :: cs =>
    if c.kind = "." then 1 + pyCountDots cs
    else if c.kind = "import" || c.kind = "from" then pyCountDots cs
    else 0

/-- The per-`import_statement` / `import_from_statement` body of
`PythonParser::collect_import_modules` (lines 383-454), extending the
accumulated module list. -/
def pythonProcessImportNode (source : List Char) (modules : List String)
    (node : PNode) : List String :=
  if node.kind = "import_statement" then
    node.children.foldl (fun acc child =>
      if child.kind = "dotted_name" then
        acc ++ [String.mk (nodeText source child)]
      else if child.kind = "aliased_import" then
        match childByField child "name" with
        | some nm => acc ++ [String.mk (nodeText source nm)]
        | none => acc
      else acc) modules
  else if node.kind = "import_from_statement" then
    let module := childByField node "module_name"
    let modPre0 :=
      match module with
      | some m => String.mk (nodeText source m)
      | none => ""
    let dot_count := pyCountDots node.children
    let modPre :=
      if 0 < dot_count then
        if modPre0 = "" then String.mk (List.replicate dot_count '.')
        else String.mk (List.replicate dot_count '.') ++ modPre0
      else modPre0
    let modules := node.children.foldl (fun acc child =>
      if child.kind = "dotted_name" && !(optNodeBeq child module) then
        let name := String.mk (nodeText source child)
        if modPre = "" then acc ++ [name] else acc ++ [modPre ++ "." ++ name]
      else if child.kind = "aliased_import" then
        match childByField child "name" with
        | some nm =>
          let nt := String.mk (nodeText source nm)
          if modPre = "" then acc ++ [nt] else acc ++ [modPre ++ "." ++ nt]
        | none => acc
      else acc) modules
    if modules.isEmpty ||
        (match modules.getLast? with
         | some m => !(strContainsSub m modPre)
         | none => true) then
      if modPre ≠ "" then
        if !(modules.any (fun m => modPre.isPrefixOf m)) then
          modules ++ [modPre]
        else modules
      else modules
    else modules
  else modules

/-- The outer sibling loop of `PythonParser::collect_import_modules`
(lines 456-471): process each import of the run, stepping over comments. -/
def pythonCollectImportModulesGo (source : List Char) (modules : List String) :
    List PNode → List String
  | [] => modules
  | ns :: rest =>
    if isPyImport ns.kind then
      pythonCollectImportModulesGo source
        (pythonProcessImportNode source modules ns) rest
    else if ns.kind = "comment" then
      pythonCollectImportModulesGo source modules rest
    else modules

/-- `PythonParser::collect_import_modules`: the start node, then its
following siblings. -/
def pythonCollectImportModules (source : List Char) (start : PNode)
    (nextSibs : List PNode) : List String :=
  pythonCollectImportModulesGo source
    (pythonProcessImportNode source [] start) nextSibs

/-- `PythonParser::generate_import_preview`.  In the `Source` branch the
byte-buffer model makes `&first_line[..57]` a plain `take 57`; the UTF-8
boundary behaviour of that slice is modelled separately by
`pythonImportSourcePreviewChecked`. -/
def pythonGenerateImportPreview (source : List Char) (start : PNode)
    (nextSibs : List PNode) (import_count : Nat) (mode : PreviewMode) : String :=
  match mode with
  | .Minimal => toString import_count ++ " imports"
  | .Names | .Flow =>
    let modules := pythonCollectImportModules source start nextSibs
    if modules.isEmpty then toString import_count ++ " imports"
    else if modules.length ≤ 5 then String.intercalate ", " modules
    else
      String.intercalate ", " (modules.take 4) ++ ", +" ++
        toString (modules.length - 4) ++ " more"
  | .Source =>
    let fl := firstLine (nodeText source start)
    if 60 < fl.length then String.mk (fl.take 57) ++ "..."
    else String.mk fl

/-- `PythonParser::collect_import_block` (lines 291-340): emit a region only
when the run holds two or more imports, spanning from the first statement's
start to the last statement's end. -/
def pythonCollectImportBlock (source : List Char) (cfg : ScanConfig)
    (start : PNode) (nextSibs : List PNode) : Option FoldRegion :=
  let ec := pythonCollectRun nextSibs start 1
  if 2 ≤ ec.2 then
    some { FoldRegion.new .Import start.start_byte ec.1.end_byte
             (start.start_row + 1) (ec.1.end_row + 1) start.start_col
             ec.1.end_col with
           preview := some (pythonGenerateImportPreview source start nextSibs
             ec.2 cfg.preview_mode) }
  else none

/-- The `import_statement | import_from_statement` arm of
`PythonParser::traverse_node`, applied across the children of the module
node (each such child has a parent, so the arm's `parent.is_some()` guard
holds); `prevRev` holds the already-visited siblings, nearest first. -/
def pythonImportRegionsGo (source : List Char) (cfg : ScanConfig)
    (prevRev : List PNode) : List PNode → List FoldRegion
  | [] => []
  | n :: rest =>
    (if isPyImport n.kind && cfg.fold_filter.fold_imports && pyIsFirst prevRev
     then (pythonCollectImportBlock source cfg n rest).toList
     else []) ++ pythonImportRegionsGo source cfg (n :: prevRev) rest

/-- The Import regions the Python extractor emits from the module's child
list. -/
def pythonImportRegions (source : List Char) (cfg : ScanConfig)
    (sibs : List PNode) : List FoldRegion :=
  pythonImportRegionsGo source cfg [] sibs

/-- The node-kind match of `JavaScriptParser::collect_control_flow_recursive`. -/
def jsFlowKeyword (kind : String) : List String :=
  match kind with
  | "if_statement" => ["if"]
  | "for_statement" | "for_in_statement" => ["for"]
  | "while_statement" | "do_statement" => ["while"]
  | "try_statement" => ["try"]
  | "switch_statement" => ["switch"]
  | "return_statement" => ["return"]
  | "throw_statement" => ["throw"]
  | "yield_expression" => ["yield"]
  | "await_expression" => ["await"]
  | _ => []

/-- The recursion guard of the JavaScript `collect_control_flow_recursive`. -/
def jsFlowStop (kind : String) : Bool :=
  kind = "function_declaration" || kind = "function" ||
    kind = "arrow_function" || kind = "method_definition" ||
    kind = "class_declaration" || kind = "class"

mutual
def jsCollectFlow (n : PNode) : List String :=
  jsFlowKeyword n.kind ++
    (if jsFlowStop n.kind then [] else jsCollectFlowList n.children)
termination_by sizeOf n
decreasing_by exact sizeOf_children_lt n
def jsCollectFlowList : List PNode → List String
  | [] => []
  | c :: cs => jsCollectFlow c ++ jsCollectFlowList cs
termination_by l => sizeOf l
decreasing_by all_goals (simp; try omega)
end

/-- `JavaScriptParser::extract_control_flow`. -/
def jsExtractControlFlow (body : PNode) : List String :=
  dedupFirstSeen (jsCollectFlow body)

/-- `JavaScriptParser::get_function_signature`: node text up to the first
opening brace, trimmed; falling back to the first line. -/
def jsGetFunctionSignature (source : List Char) (n : PNode) : String :=
  let text := nodeText source n
  match text.findIdx? (· = '\x7b') with
  | some i => String.mk (trimChars (text.take i))
  | none => String.mk (firstLine text)

/-- The chain-walking loop of `JavaScriptParser::detect_chain`: follow
`call_expression → member_expression(function) → object` leftward. -/
def jsChainDepth (n : PNode) : Nat :=
  if n.kind = "call_expression" then
    match h : childByField n "function" with
    | some func =>
      if func.kind = "member_expression" then
        match h2 : childByField func "object" with
        | some obj => 1 + jsChainDepth obj
        | none => 1
      else 1
    | none => 1
  else 0
termination_by sizeOf n
decreasing_by
  have hf := sizeOf_lt_of_childByField h
  have ho := sizeOf_lt_of_childByField h2
  omega

/-- `JavaScriptParser::detect_chain`: depth ≥ 3 spanning several lines, the
preview ignores the preview mode. -/
def jsDetectChain (n : PNode) : Option FoldRegion :=
  let depth := jsChainDepth n
  if 3 ≤ depth && decide (n.start_row < n.end_row) then
    some { FoldRegion.new .ChainedCall n.start_byte n.end_byte
             (n.start_row + 1) (n.end_row + 1) n.start_col n.end_col with
           preview := some ("...chain (" ++ toString depth ++ " calls)") }
  else none

/-- The immediate-previous-sibling test of the `import_statement` arm of
`JavaScriptParser::traverse_node` (lines 108-112): unlike the Python arm it
does not step backwards over comments. -/
def jsIsFirst : List PNode → Bool
  | [] => true
  | p :: _ => !(p.kind = "import_statement") && !(p.kind = "comment")

/-- The forward walk of `JavaScriptParser::collect_import_block`. -/
def jsCollectRun : List PNode → PNode → Nat → PNode × Nat
  | [], e, c => (e, c)
  | ns :: rest, e, c =>
    if ns.kind = "import_statement" then jsCollectRun rest ns (c + 1)
    else if ns.kind = "comment" then jsCollectRun rest e c
    else (e, c)

/-- The inner `import_clause` walk of
`JavaScriptParser::collect_import_modules`: default imports, named imports
and namespace imports. -/
def jsClauseImports (source : List Char) (clause : PNode) : List String :=
  clause.children.foldl (fun acc cc =>
    if cc.kind = "identifier" then acc ++ [String.mk (nodeText source cc)]
    else if cc.kind = "named_imports" then
      cc.children.foldl (fun acc2 named =>
        if named.kind = "import_specifier" then
          match childByField named "name" with
          | some nm => acc2 ++ [String.mk (nodeText source nm)]
          | none => acc2
        else acc2) acc
    else if cc.kind = "namespace_import" then acc ++ ["*"]
    else acc) []

/-- The per-`import_statement` body of
`JavaScriptParser::collect_import_modules` (lines 433-485). -/
def jsProcessImportNode (source : List Char) (modules : List String)
    (node : PNode) : List String :=
  if node.kind = "import_statement" then
    let st := node.children.foldl (fun (st : Option String × List String) child =>
      if child.kind = "string" then
        (some (String.mk (stripCharEnds '\'' (stripCharEnds '"'
           (nodeText source child)))), st.2)
      else if child.kind = "import_clause" then
        (st.1, st.2 ++ jsClauseImports source child)
      else st) (none, [])
    match st.1 with
    | some src =>
      if st.2.isEmpty then modules ++ [src]
      else modules ++ st.2.map (fun imp =>
        if imp = "*" then src ++ ".*" else src ++ "." ++ imp)
    | none => modules
  else modules

/-- The outer sibling loop of `JavaScriptParser::collect_import_modules`
(lines 487-502). -/
def jsCollectImportModulesGo (source : List Char) (modules : List String) :
    List PNode → List String
  | [] => modules
  | ns :: rest =>
    if ns.kind = "import_statement" then
      jsCollectImportModulesGo source
        (jsProcessImportNode source modules ns) rest
    else if ns.kind = "comment" then
      jsCollectImportModulesGo source modules rest
    else modules

/-- `JavaScriptParser::collect_import_modules`. -/
def jsCollectImportModules (source : List Char) (start : PNode)
    (nextSibs : List PNode) : List String :=
  jsCollectImportModulesGo source
    (jsProcessImportNode source [] start) nextSibs

/-- The forward walk of `JavaScriptParser::get_import_block_source`: find
the last import of the run. -/
def jsRunEnd : List PNode → PNode → PNode
  | [], e => e
  | ns :: rest, e =>
    if ns.kind = "import_statement" then jsRunEnd rest ns
    else if ns.kind = "comment" then jsRunEnd rest e
    else e

/-- `JavaScriptParser::get_import_block_source`: full text from the start of
the first import to the end of the last import. -/
def jsGetImportBlockSource (source : List Char) (start : PNode)
    (nextSibs : List PNode) : String :=
  let e := jsRunEnd nextSibs start
  String.mk ((source.take e.end_byte).drop start.start_byte)

/-- `JavaScriptParser::generate_import_preview`: in `Source` mode the whole
text of the import block is returned (no truncation, unlike Python). -/
def jsGenerateImportPreview (source : List Char) (start : PNode)
    (nextSibs : List PNode) (import_count : Nat) (mode : PreviewMode) : String :=
  match mode with
  | .Minimal => toString import_count ++ " imports"
  | .Names | .Flow =>
    let modules := jsCollectImportModules source start nextSibs
    if modules.isEmpty then toString import_count ++ " imports"
    else if modules.length ≤ 5 then String.intercalate ", " modules
    else
      String.intercalate ", " (modules.take 4) ++ ", +" ++
        toString (modules.length - 4) ++ " more"
  | .Source => jsGetImportBlockSource source start nextSibs

/-- `JavaScriptParser::generate_function_preview`: in `Source` mode the full
function source is returned (no two-line/80-char truncation, unlike
Python). -/
def jsGenerateFunctionPreview (source : List Char) (node body : PNode)
    (mode : PreviewMode) : String :=
  let signature := jsGetFunctionSignature source node
  match mode with
  | .Minimal => signature
  | .Names => signature
  | .Flow =>
    let flow := jsExtractControlFlow body
    if flow.isEmpty then signature
    else signature ++ " -> " ++ String.intercalate "/" flow
  | .Source => String.mk (nodeText source node)

/-- `JavaScriptParser::collect_import_block` (lines 340-389). -/
def jsCollectImportBlock (source : List Char) (cfg : ScanConfig)
    (start : PNode) (nextSibs : List PNode) : Option FoldRegion :=
  let ec := jsCollectRun nextSibs start 1
  if 2 ≤ ec.2 then
    some { FoldRegion.new .Import start.start_byte ec.1.end_byte
             (start.start_row + 1) (ec.1.end_row + 1) start.start_col
             ec.1.end_col with
           preview := some (jsGenerateImportPreview source start nextSibs
             ec.2 cfg.preview_mode) }
  else none

/-- The `import_statement` arm of `JavaScriptParser::traverse_node`
(lines 105-121), applied across the children of the program node. -/
def jsImportRegionsGo (source : List Char) (cfg : ScanConfig)
    (prevRev : List PNode) : List PNode → List FoldRegion
  | [] => []
  | n :: rest =>
    (if n.kind = "import_statement" && cfg.fold_filter.fold_imports &&
        jsIsFirst prevRev
     then (jsCollectImportBlock source cfg n rest).toList
     else []) ++ jsImportRegionsGo source cfg (n :: prevRev) rest

/-- The Import regions the JavaScript extractor emits from the program's
child list. -/
def jsImportRegions (source : List Char) (cfg : ScanConfig)
    (sibs : List PNode) : List FoldRegion :=
  jsImportRegionsGo source cfg [] sibs

/-- `str::len()` of a `&str`, i.e. the UTF-8 byte length of a char
sequence. -/
def byteLen (l : List Char) : Nat :=
  (l.map Char.utf8Size).sum

/-- `&s[..k]` on a Rust `&str`: take exactly `k` bytes; `none` models the
panic when `k` is not a character boundary (or past the end). -/
def byteTake? : Nat → List Char → Option (List Char)
  | 0, _ => some []
  | Nat.succ k, [] => (fun _ => none) k
  | Nat.succ k, c :: cs =>
    if c.utf8Size ≤ k + 1 then (byteTake? (k + 1 - c.utf8Size) cs).map (c :: ·)
    else none

/-- UTF-8-faithful model of the `PreviewMode::Source` branch of
`PythonParser::generate_import_preview` (python.rs lines 561-569): the text
is a sequence of unicode characters, `first_line.len()` is its byte length
and `&first_line[..57]` is a byte slice whose boundary panic is modelled by
`none`. -/
def pythonImportSourcePreviewChecked (text : List Char) : Option String :=
  let fl := firstLine text
  if 60 < byteLen fl then
    (byteTake? 57 fl).map (fun p => String.mk p ++ "...")
  else some (String.mk fl)

/-- `PythonParser::extract_dict_keys`: key texts of `pair` children, quotes
stripped, empty keys dropped. -/
def pythonExtractDictKeys (source : List Char) (node : PNode) : List String :=
  node.children.foldl (fun acc child =>
    if child.kind = "pair" then
      match childByField child "key" with
      | some key =>
        let clean := stripCharEnds '\'' (stripCharEnds '"' (nodeText source key))
        if clean.isEmpty then acc else acc ++ [String.mk clean]
      | none => acc
    else acc) []

/-- `PythonParser::generate_dict_preview`. -/
def pythonGenerateDictPreview (source : List Char) (node : PNode)
    (line_count : Nat) (mode : PreviewMode) : String :=
  match mode with
  | .Minimal => "\x7b...\x7d (" ++ toString line_count ++ " lines)"
  | .Names | .Flow =>
    let keys := pythonExtractDictKeys source node
    if keys.isEmpty then "\x7b...\x7d (" ++ toString line_count ++ " lines)"
    else if keys.length ≤ 5 then
      "\x7b " ++ String.intercalate ", " keys ++ " \x7d"
    else
      "\x7b " ++ String.intercalate ", " (keys.take 4) ++ ", +" ++
        toString (keys.length - 4) ++ " more \x7d"
  | .Source =>
    let t := nodeText source node
    let preview := String.mk (t.take 60)
    if 60 < t.length then preview ++ "..." else preview

/-- Number of Python import statements in a sibling list. -/
def pyImportCount (sibs : List PNode) : Nat :=
  (sibs.filter (fun n => isPyImport n.kind)).length

/-- Number of JavaScript import statements in a sibling list. -/
def jsImportCount (sibs : List PNode) : Nat :=
  (sibs.filter (fun n => n.kind = "import_statement")).length

/-- Flatten the tail of an import run given as (comment-run, import) pairs. -/
def runFlat (mids : List (List PNode × PNode)) : List PNode :=
  mids.flatMap (fun p => p.1 ++ [p.2])

/-- The last import of a run described by a head import and `runFlat` tail. -/
def lastImport (first : PNode) (mids : List (List PNode × PNode)) : PNode :=
  match mids.getLast? with
  | some p => p.2
  | none => first

/-- Fixture: Python syntax tree for the three-line chain `a.b().c().d()`
(`call → attribute → call → attribute → call → attribute → identifier`). -/
def chainIdentA : PNode :=
  ⟨"identifier", some "object", 0, 1, 0, 0, 0, 1, []⟩

def chainAttrB : PNode :=
  ⟨"attribute", some "function", 0, 3, 0, 0, 0, 3,
    [chainIdentA, ⟨"identifier", some "attribute", 2, 3, 0, 0, 2, 3, []⟩]⟩

def chainCallInner : PNode :=
  ⟨"call", some "object", 0, 5, 0, 0, 0, 5,
    [chainAttrB, ⟨"argument_list", some "arguments", 3, 5, 0, 0, 3, 5, []⟩]⟩

def chainAttrC : PNode :=
  ⟨"attribute", some "function", 0, 8, 0, 1, 0, 2,
    [chainCallInner, ⟨"identifier", some "attribute", 7, 8, 1, 1, 1, 2, []⟩]⟩

def chainCallMid : PNode :=
  ⟨"call", some "object", 0, 10, 0, 1, 0, 4,
    [chainAttrC, ⟨"argument_list", some "arguments", 8, 10, 1, 1, 2, 4, []⟩]⟩

def chainAttrD : PNode :=
  ⟨"attribute", some "function", 0, 13, 0, 2, 0, 2,
    [chainCallMid, ⟨"identifier", some "attribute", 12, 13, 2, 2, 1, 2, []⟩]⟩

def chainCallOuter : PNode :=
  ⟨"call", none, 0, 15, 0, 2, 0, 4,
    [chainAttrD, ⟨"argument_list", some "arguments", 13, 15, 2, 2, 2, 4, []⟩]⟩

def chainExampleModule : PNode :=
  ⟨"module", none, 0, 16, 0, 3, 0, 0,
    [⟨"expression_statement", none, 0, 15, 0, 2, 0, 4, [chainCallOuter]⟩]⟩

/-- Fixture: a Python function body holding an `if` (with a nested function
whose body holds a `while`), a second `if`, then a `for`. -/
def flowExampleBody : PNode :=
  ⟨"block", none, 9, 200, 1, 9, 4, 0,
    [⟨"if_statement", none, 9, 80, 1, 4, 4, 0,
       [⟨"function_definition", none, 30, 80, 2, 4, 8, 0,
          [⟨"block", none, 50, 80, 3, 4, 8, 0,
             [⟨"while_statement", none, 50, 80, 3, 4, 8, 0, []⟩]⟩]⟩]⟩,
     ⟨"if_statement", none, 85, 120, 5, 6, 4, 0, []⟩,
     ⟨"for_statement", none, 125, 200, 7, 9, 4, 0, []⟩]⟩

def flowExampleFn : PNode :=
  ⟨"function_definition", none, 0, 200, 0, 9, 0, 0, [flowExampleBody]⟩

def flowExampleSource : List Char :=
  "def f():".toList

/-- Fixture: `import a, b, c, d, e, f` — six dotted names in one import. -/
def namesExampleSource : List Char :=
  "import a, b, c, d, e, f".toList

def namesExampleImport : PNode :=
  ⟨"import_statement", none, 0, 23, 0, 0, 0, 23,
    [⟨"import", none, 0, 6, 0, 0, 0, 6, []⟩,
     ⟨"dotted_name", none, 7, 8, 0, 0, 7, 8, []⟩,
     ⟨"dotted_name", none, 10, 11, 0, 0, 10, 11, []⟩,
     ⟨"dotted_name", none, 13, 14, 0, 0, 13, 14, []⟩,
     ⟨"dotted_name", none, 16, 17, 0, 0, 16, 17, []⟩,
     ⟨"dotted_name", none, 19, 20, 0, 0, 19, 20, []⟩,
     ⟨"dotted_name", none, 22, 23, 0, 0, 22, 23, []⟩]⟩

/-- Fixture: a dict literal with six keys `k1` … `k6`. -/
def keysExampleSource : List Char :=
  "k1k2k3k4k5k6".toList

def keysExampleDict : PNode :=
  ⟨"dictionary", none, 0, 12, 0, 5, 0, 0,
    [⟨"pair", none, 0, 2, 0, 0, 0, 2, [⟨"identifier", some "key", 0, 2, 0, 0, 0, 2, []⟩]⟩,
     ⟨"pair", none, 2, 4, 0, 0, 2, 4, [⟨"identifier", some "key", 2, 4, 0, 0, 2, 4, []⟩]⟩,
     ⟨"pair", none, 4, 6, 0, 0, 4, 6, [⟨"identifier", some "key", 4, 6, 0, 0, 4, 6, []⟩]⟩,
     ⟨"pair", none, 6, 8, 0, 0, 6, 8, [⟨"identifier", some "key", 6, 8, 0, 0, 6, 8, []⟩]⟩,
     ⟨"pair", none, 8, 10, 0, 0, 8, 10, [⟨"identifier", some "key", 8, 10, 0, 0, 8, 10, []⟩]⟩,
     ⟨"pair", none, 10, 12, 0, 0, 10, 12, [⟨"identifier", some "key", 10, 12, 0, 0, 10, 12, []⟩]⟩]⟩

/-- Fixture: `import os` twice in a row (duplicate module name). -/
def dupExampleSource : List Char :=
  "import os\nimport os".toList

def dupImport1 : PNode :=
  ⟨"import_statement", none, 0, 9, 0, 0, 0, 9,
    [⟨"import", none, 0, 6, 0, 0, 0, 6, []⟩,
     ⟨"dotted_name", none, 7, 9, 0, 0, 7, 9, []⟩]⟩

def dupImport2 : PNode :=
  ⟨"import_statement", none, 10, 19, 1, 1, 0, 9,
    [⟨"import", none, 10, 16, 1, 1, 0, 6, []⟩,
     ⟨"dotted_name", none, 17, 19, 1, 1, 7, 9, []⟩]⟩

/-- Fixture: a three-line JavaScript function and its source text. -/
def jsFnExampleSource : List Char :=
  "function f() \x7b\n  return 1;\n\x7d".toList

def jsFnExampleNode : PNode :=
  ⟨"function_declaration", none, 0, 28, 0, 2, 0, 1, []⟩

theorem contains_false_of_strict {A B : FoldRegion}
    (hc : A.contains B = true)
    (hne : A.start_byte ≠ B.start_byte ∨ A.end_byte ≠ B.end_byte) :
    B.contains A = false := by
  simp only [FoldRegion.contains, Bool.and_eq_true, decide_eq_true_eq] at hc
  simp only [FoldRegion.contains, Bool.and_eq_false_iff, decide_eq_false_iff_not]
  rcases hne with h | h <;> omega

theorem filterStep_pairwise {res : List FoldRegion} {f : FoldRegion}
    (hp : res.Pairwise (fun a b => a.contains b = false ∧ b.contains a = false)) :
    (filterStep res f).Pairwise
      (fun a b => a.contains b = false ∧ b.contains a = false) := by
  unfold filterStep
  by_cases h : res.any (fun g => g.contains f) = true
  · rw [if_pos h]
    exact hp
  · rw [if_neg h]
    have h' : res.any (fun g => g.contains f) = false :=
      Bool.eq_false_iff.mpr h
    rw [List.pairwise_append]
    refine ⟨hp.filter _, List.pairwise_singleton _ _, ?_⟩
    intro a ha b hb
    rw [List.mem_filter] at ha
    rw [List.mem_singleton] at hb
    subst hb
    constructor
    · have hall := List.any_eq_false.mp h' a ha.1
      simp only [Bool.not_eq_true] at hall
      exact hall
    · have := ha.2
      simp only [Bool.not_eq_true'] at this
      exact this

theorem foldl_filterStep_pairwise (folds : List FoldRegion) :
    ∀ res : List FoldRegion,
      res.Pairwise (fun a b => a.contains b = false ∧ b.contains a = false) →
      (folds.foldl filterStep res).Pairwise
        (fun a b => a.contains b = false ∧ b.contains a = false) := by
  induction folds with
  | nil => intro res hp; exact hp
  | cons f rest ih =>
    intro res hp
    exact ih (filterStep res f) (filterStep_pairwise hp)

theorem mem_filterStep {x f : FoldRegion} {res : List FoldRegion}
    (hx : x ∈ filterStep res f) : x ∈ res ∨ x = f := by
  unfold filterStep at hx
  by_cases h : res.any (fun g => g.contains f) = true
  · rw [if_pos h] at hx
    exact Or.inl hx
  · rw [if_neg h] at hx
    simp only [List.mem_append, List.mem_filter, List.mem_singleton] at hx
    rcases hx with ⟨hmem, _⟩ | heq
    · exact Or.inl hmem
    · exact Or.inr heq

theorem mem_foldl_filterStep (folds : List FoldRegion) :
    ∀ res x, x ∈ folds.foldl filterStep res → x ∈ res ∨ x ∈ folds := by
  induction folds with
  | nil => intro res x hx; exact Or.inl hx
  | cons f rest ih =>
    intro res x hx
    rcases ih (filterStep res f) x hx with hr | hrest
    · rcases mem_filterStep hr with hres | heq
      · exact Or.inl hres
      · exact Or.inr (heq ▸ List.mem_cons_self f rest)
    · exact Or.inr (List.mem_cons_of_mem f hrest)

/-- C1 (amended).  For every input list, `filter_overlapping_folds` returns a
list sorted ascending by `start_byte` in which no region contains another;
and whenever no two input candidates partially overlap (any overlapping pair
is in a containment relation), the output is also pairwise non-overlapping.
The unconditional no-overlap reading of the claim is refuted by
`resolver_no_overlap_counterexample`. -/
theorem resolver_sorted_and_containment_free (folds : List FoldRegion) :
    (filterOverlappingFolds folds).Sorted startOrd ∧
    (filterOverlappingFolds folds).Pairwise
      (fun a b => a.contains b = false ∧ b.contains a = false) ∧
    ((∀ a ∈ folds, ∀ b ∈ folds, a.overlaps b = true →
        a.contains b = true ∨ b.contains a = true) →
      (filterOverlappingFolds folds).Pairwise
        (fun a b => a.overlaps b = false)) := by
  have hperm : List.Perm (List.insertionSort startOrd (folds.foldl filterStep []))
      (folds.foldl filterStep []) := List.perm_insertionSort startOrd _
  have hnc : (filterOverlappingFolds folds).Pairwise
      (fun a b => a.contains b = false ∧ b.contains a = false) := by
    unfold filterOverlappingFolds
    exact (hperm.pairwise_iff (fun {a b} h => ⟨h.2, h.1⟩)).mpr
      (foldl_filterStep_pairwise folds [] List.Pairwise.nil)
  refine ⟨List.sorted_insertionSort startOrd _, hnc, ?_⟩
  intro hlam
  have hmem : ∀ x ∈ filterOverlappingFolds folds, x ∈ folds := by
    intro x hx
    unfold filterOverlappingFolds at hx
    rcases mem_foldl_filterStep folds [] x (hperm.mem_iff.mp hx) with h0 | h1
    · exact absurd h0 (List.not_mem_nil x)
    · exact h1
  refine hnc.imp_of_mem ?_
  intro a b ha hb hab
  by_contra hover
  have hov : a.overlaps b = true := by
    cases hv : a.overlaps b
    · exact absurd hv hover
    · rfl
  rcases hlam a (hmem a ha) b (hmem b hb) hov with h | h
  · exact absurd h (by simp [hab.1])
  · exact absurd h (by simp [hab.2])

/-- Witness for `resolver_sorted_and_containment_free` at a concrete
nested-candidate list (the laminar hypothesis holds there). -/
theorem resolver_sorted_and_containment_free_witness :
    (filterOverlappingFolds
        [FoldRegion.new .Block 0 100 1 10 0 0,
         FoldRegion.new .Block 10 50 3 5 0 0]).Pairwise
      (fun a b => a.overlaps b = false) :=
  (resolver_sorted_and_containment_free
      [FoldRegion.new .Block 0 100 1 10 0 0,
       FoldRegion.new .Block 10 50 3 5 0 0]).2.2 (by decide)

/-- C1 counterexample: two partially overlapping candidates both survive
`filter_overlapping_folds`, so the output is not overlap-free as claimed. -/
theorem resolver_no_overlap_counterexample :
    filterOverlappingFolds
        [FoldRegion.new .Block 0 10 1 1 0 10, FoldRegion.new .Block 5 15 1 1 5 15] =
      [FoldRegion.new .Block 0 10 1 1 0 10, FoldRegion.new .Block 5 15 1 1 5 15] ∧
    (FoldRegion.new .Block 0 10 1 1 0 10).overlaps
        (FoldRegion.new .Block 5 15 1 1 5 15) = true ∧
    (FoldRegion.new .Block 0 10 1 1 0 10).start_byte ≠
      (FoldRegion.new .Block 5 15 1 1 5 15).start_byte := by
  refine ⟨rfl, by decide, by decide⟩

/-- C2.  Given two candidates where `contains(A, B)` holds and the byte
ranges differ (strict nesting), the resolver keeps the outer region `A` and
discards the nested `B`, in either presentation order. -/
theorem resolver_outermost_wins (A B : FoldRegion)
    (hc : A.contains B = true)
    (hne : A.start_byte ≠ B.start_byte ∨ A.end_byte ≠ B.end_byte) :
    filterOverlappingFolds [A, B] = [A] ∧ filterOverlappingFolds [B, A] = [A] := by
  have hBA : B.contains A = false := contains_false_of_strict hc hne
  constructor
  · simp [filterOverlappingFolds, filterStep, hc, hBA,
      List.insertionSort, List.orderedInsert]
  · simp [filterOverlappingFolds, filterStep, hc, hBA,
      List.insertionSort, List.orderedInsert]

/-- Witness for `resolver_outermost_wins`: lines 1-10 versus nested lines
3-5, as in the spec's example. -/
theorem resolver_outermost_wins_witness :
    filterOverlappingFolds
        [FoldRegion.new .Block 0 100 1 10 0 0, FoldRegion.new .Block 10 50 3 5 0 0] =
      [FoldRegion.new .Block 0 100 1 10 0 0] ∧
    filterOverlappingFolds
        [FoldRegion.new .Block 10 50 3 5 0 0, FoldRegion.new .Block 0 100 1 10 0 0] =
      [FoldRegion.new .Block 0 100 1 10 0 0] :=
  resolver_outermost_wins _ _ (by decide) (Or.inl (by decide))

theorem renderLoop_eq_splice (ff : FoldFilter) (source : List Char) :
    ∀ (folds : List FoldRegion) (acc : List Char) (c : Nat),
      renderLoop ff source folds acc c =
        acc ++ splice source c (appliedFolds ff c folds) := by
  intro folds
  induction folds with
  | nil => intro acc c; simp [renderLoop, appliedFolds, splice]
  | cons fold rest ih =>
    intro acc c
    by_cases hf : ff.should_fold fold.fold_type = false
    · rw [renderLoop, if_pos hf]
      rw [ih]
      simp [appliedFolds, hf]
    · by_cases hs : fold.start_byte < c
      · rw [renderLoop, if_neg hf, if_pos hs]
        rw [ih]
        have : ff.should_fold fold.fold_type = true :=
          Bool.ne_false_iff.mp hf
        simp [appliedFolds, this, hs]
      · rw [renderLoop, if_neg hf, if_neg hs]
        rw [ih]
        have ht : ff.should_fold fold.fold_type = true :=
          Bool.ne_false_iff.mp hf
        rw [appliedFolds]
        rw [ht]
        simp only [if_true, Bool.false_eq_true, if_false, hs, splice]
        by_cases hlt : c < fold.start_byte
        · rw [if_pos hlt]
          simp [List.append_assoc]
        · rw [if_neg hlt]
          have hc : fold.start_byte = c := by omega
          have hnil : (source.take fold.start_byte).drop c = [] := by
            apply List.drop_eq_nil_of_le
            calc (source.take fold.start_byte).length ≤ fold.start_byte :=
                  by simpa using List.length_take_le fold.start_byte source
              _ ≤ c := le_of_eq hc
          rw [hnil]
          simp [List.append_assoc]

/-- C3.  Rendering with an empty region list returns the source unchanged,
and in general the rendered output decomposes as `splice`: verbatim
`take`/`drop` slices of the input between placeholders, so all text outside
the folded ranges is byte-identical to the corresponding input slices. -/
theorem render_identity_and_byte_preservation :
    (∀ (cfg : ScanConfig) (source : List Char), render cfg source [] = source) ∧
    (∀ (cfg : ScanConfig) (source : List Char) (folds : List FoldRegion),
      render cfg source folds =
        splice source 0
          (appliedFolds cfg.fold_filter 0
            (filterOverlappingFolds (List.insertionSort renderOrd folds)))) := by
  constructor
  · intro cfg source
    rfl
  · intro cfg source folds
    by_cases h : folds.isEmpty
    · have : folds = [] := List.isEmpty_iff.mp h
      subst this
      rfl
    · unfold render
      rw [if_neg (by simp [h])]
      rw [renderLoop_eq_splice]
      simp

/-- C10.  When a region's `preview` is `None`, both placeholder formatters
substitute the literal `"..."`, producing `/* ... (N lines) */` when
`line_count > 1` and `/* ... */` otherwise (the ANSI variant wraps the same
placeholder in dim + color + reset codes). -/
theorem placeholder_fallback_preview (fold : FoldRegion)
    (h : fold.preview = none) :
    (1 < fold.line_count →
      formatPlaceholder fold =
        "/* ... (" ++ toString fold.line_count ++ " lines) */" ∧
      formatPlaceholderAnsi fold =
        "\x1b[2m" ++ fgColorCode (getFoldColor fold.fold_type) ++
          "/* " ++ "..." ++ " (" ++ toString fold.line_count ++ " lines) */" ++
          "\x1b[0m") ∧
    (¬ 1 < fold.line_count →
      formatPlaceholder fold = "/* ... */" ∧
      formatPlaceholderAnsi fold =
        "\x1b[2m" ++ fgColorCode (getFoldColor fold.fold_type) ++
          "/* " ++ "..." ++ " */" ++ "\x1b[0m") := by
  unfold formatPlaceholder formatPlaceholderAnsi
  rw [h]
  constructor
  · intro hl
    rw [if_pos hl, if_pos hl]
    exact ⟨rfl, rfl⟩
  · intro hl
    rw [if_neg hl, if_neg hl]
    exact ⟨rfl, rfl⟩

/-- Witness for `placeholder_fallback_preview` at a preview-less three-line
Block region and a preview-less one-line Import region. -/
theorem placeholder_fallback_preview_witness :
    formatPlaceholder (FoldRegion.new .Block 0 30 1 3 0 0) =
      "/* ... (3 lines) */" ∧
    formatPlaceholderAnsi (FoldRegion.new .Block 0 30 1 3 0 0) =
      "\x1b[2m" ++ "\x1b[34m" ++ "/* ... (3 lines) */" ++ "\x1b[0m" ∧
    formatPlaceholder (FoldRegion.new .Import 0 9 1 1 0 9) = "/* ... */" := by
  have h1 := (placeholder_fallback_preview (FoldRegion.new .Block 0 30 1 3 0 0)
    rfl).1 (by decide)
  have h2 := (placeholder_fallback_preview (FoldRegion.new .Import 0 9 1 1 0 9)
    rfl).2 (by decide)
  exact ⟨h1.1, h1.2, h2.1⟩

/-- C6 settlement (code_bug).  The spec requires preview generation to be
total, but the `Source` branch of `PythonParser::generate_import_preview`
slices `&first_line[..57]`, which panics when byte 57 is not a UTF-8
character boundary.  On the UTF-8-faithful model an import line of 56 ASCII
characters, one two-byte character and three more ASCII characters (61 bytes,
so longer than 60) makes the slice fall inside the two-byte character:
the checked model returns `none`, i.e. the Rust code panics. -/
theorem import_source_preview_panics_on_multibyte :
    pythonImportSourcePreviewChecked
      (List.replicate 56 'a' ++ 'é' :: ['x', 'x', 'x']) = none ∧
    60 < byteLen (firstLine (List.replicate 56 'a' ++ 'é' :: ['x', 'x', 'x'])) := by
  constructor
  · decide
  · decide

/-- C7 (amended).  Under `Source` preview mode the Python extractor yields a
Block preview equal to the first two lines of the region joined by a space
and truncated to 80 characters, and an import-run preview equal to the first
line truncated to 60 characters (57 characters plus `"..."` when longer);
the JavaScript extractor instead returns the full node text (functions) and
the full import-block text, untruncated — so the rule is not uniform across
languages (see `js_source_preview_counterexample`). -/
theorem source_preview_amended :
    (∀ (source : List Char) (node body : PNode),
      pythonGenerateFunctionPreview source node body .Source =
        String.mk ((List.intercalate [' ']
          ((rustLines (nodeText source node)).take 2)).take 80) ∧
      (pythonGenerateFunctionPreview source node body .Source).length ≤ 80) ∧
    (∀ (source : List Char) (start : PNode) (sibs : List PNode) (cnt : Nat),
      pythonGenerateImportPreview source start sibs cnt .Source =
        (if 60 < (firstLine (nodeText source start)).length
         then String.mk ((firstLine (nodeText source start)).take 57) ++ "..."
         else String.mk (firstLine (nodeText source start))) ∧
      (pythonGenerateImportPreview source start sibs cnt .Source).length ≤ 60) ∧
    (∀ (source : List Char) (node body : PNode),
      jsGenerateFunctionPreview source node body .Source =
        String.mk (nodeText source node)) ∧
    (∀ (source : List Char) (start : PNode) (sibs : List PNode) (cnt : Nat),
      jsGenerateImportPreview source start sibs cnt .Source =
        jsGetImportBlockSource source start sibs) := by
  refine ⟨?_, ?_, ?_, ?_⟩
  · intro source node body
    refine ⟨rfl, ?_⟩
    show (String.mk ((List.intercalate [' ']
      ((rustLines (nodeText source node)).take 2)).take 80)).length ≤ 80
    have hmk : (String.mk ((List.intercalate [' ']
        ((rustLines (nodeText source node)).take 2)).take 80)).length =
        ((List.intercalate [' ']
          ((rustLines (nodeText source node)).take 2)).take 80).length := rfl
    rw [hmk, List.length_take]
    omega
  · intro source start sibs cnt
    refine ⟨rfl, ?_⟩
    show (if 60 < (firstLine (nodeText source start)).length
         then String.mk ((firstLine (nodeText source start)).take 57) ++ "..."
         else String.mk (firstLine (nodeText source start))).length ≤ 60
    by_cases h : 60 < (firstLine (nodeText source start)).length
    · rw [if_pos h]
      rw [String.length_append]
      have h57 : (String.mk ((firstLine (nodeText source start)).take 57)).length =
          ((firstLine (nodeText source start)).take 57).length := rfl
      rw [h57, List.length_take]
      have : ("..." : String).length = 3 := rfl
      omega
    · rw [if_neg h]
      have hm : (String.mk (firstLine (nodeText source start))).length =
          (firstLine (nodeText source start)).length := rfl
      rw [hm]
      omega
  · intro source node body
    rfl
  · intro source start sibs cnt
    rfl

/-- C7 counterexample: a three-line JavaScript function whose `Source`
preview is the full function text, not the first two lines joined and
truncated to 80 characters. -/
theorem js_source_preview_counterexample :
    jsGenerateFunctionPreview jsFnExampleSource jsFnExampleNode jsFnExampleNode
        .Source ≠
      String.mk ((List.intercalate [' ']
        ((rustLines (nodeText jsFnExampleSource jsFnExampleNode)).take 2)).take 80) := by
  decide

/-- C8 (amended).  The Names-mode import preview lists the collected module
names in encounter order (they are *not* deduplicated — see
`import_names_no_dedup_counterexample`): all of them joined by `", "` when at
most 5 exist, otherwise the first 4 followed by `", +K more"` with
`K = total - 4`; object/dict-literal key previews follow the same truncation
rule. -/
theorem names_preview_truncation_amended :
    (∀ (source : List Char) (start : PNode) (sibs : List PNode) (cnt : Nat),
      (pythonCollectImportModules source start sibs ≠ [] →
        (pythonCollectImportModules source start sibs).length ≤ 5 →
        pythonGenerateImportPreview source start sibs cnt .Names =
          String.intercalate ", " (pythonCollectImportModules source start sibs)) ∧
      (5 < (pythonCollectImportModules source start sibs).length →
        pythonGenerateImportPreview source start sibs cnt .Names =
          String.intercalate ", "
              ((pythonCollectImportModules source start sibs).take 4) ++
            ", +" ++
            toString ((pythonCollectImportModules source start sibs).length - 4) ++
            " more")) ∧
    (∀ (source : List Char) (node : PNode) (lc : Nat),
      5 < (pythonExtractDictKeys source node).length →
      pythonGenerateDictPreview source node lc .Names =
        "\x7b " ++
          String.intercalate ", " ((pythonExtractDictKeys source node).take 4) ++
          ", +" ++ toString ((pythonExtractDictKeys source node).length - 4) ++
          " more \x7d") := by
  constructor
  · intro source start sibs cnt
    have hred : pythonGenerateImportPreview source start sibs cnt .Names =
        (if (pythonCollectImportModules source start sibs).isEmpty then
          toString cnt ++ " imports"
         else if (pythonCollectImportModules source start sibs).length ≤ 5 then
          String.intercalate ", " (pythonCollectImportModules source start sibs)
         else
          String.intercalate ", "
              ((pythonCollectImportModules source start sibs).take 4) ++
            ", +" ++
            toString ((pythonCollectImportModules source start sibs).length - 4) ++
            " more") := rfl
    constructor
    · intro hne hle
      rw [hred]
      have h0 : ¬ ((pythonCollectImportModules source start sibs).isEmpty = true) := by
        simpa [List.isEmpty_iff] using hne
      rw [if_neg h0, if_pos hle]
    · intro hgt
      rw [hred]
      have hne : pythonCollectImportModules source start sibs ≠ [] := by
        intro h
        rw [h] at hgt
        simp at hgt
      have h0 : ¬ ((pythonCollectImportModules source start sibs).isEmpty = true) := by
        simpa [List.isEmpty_iff] using hne
      rw [if_neg h0, if_neg (by omega)]
  · intro source node lc hgt
    have hred : pythonGenerateDictPreview source node lc .Names =
        (if (pythonExtractDictKeys source node).isEmpty then
          "\x7b...\x7d (" ++ toString lc ++ " lines)"
         else if (pythonExtractDictKeys source node).length ≤ 5 then
          "\x7b " ++ String.intercalate ", " (pythonExtractDictKeys source node) ++
            " \x7d"
         else
          "\x7b " ++
            String.intercalate ", " ((pythonExtractDictKeys source node).take 4) ++
            ", +" ++ toString ((pythonExtractDictKeys source node).length - 4) ++
            " more \x7d") := rfl
    rw [hred]
    have hne : pythonExtractDictKeys source node ≠ [] := by
      intro h
      rw [h] at hgt
      simp at hgt
    have h0 : ¬ ((pythonExtractDictKeys source node).isEmpty = true) := by
      simpa [List.isEmpty_iff] using hne
    rw [if_neg h0, if_neg (by omega)]

/-- Witness for `names_preview_truncation_amended`: six imported names yield
the first four plus `", +2 more"`, and a six-key dict behaves the same. -/
theorem names_preview_truncation_amended_witness :
    pythonGenerateImportPreview namesExampleSource namesExampleImport [] 1
        .Names = "a, b, c, d, +2 more" ∧
    pythonGenerateDictPreview keysExampleSource keysExampleDict 6 .Names =
      "\x7b k1, k2, k3, k4, +2 more \x7d" := by
  have h1 := (names_preview_truncation_amended.1 namesExampleSource
    namesExampleImport [] 1).2 (by decide)
  have h2 := names_preview_truncation_amended.2 keysExampleSource
    keysExampleDict 6 (by decide)
  constructor
  · rw [h1]; decide
  · rw [h2]; decide

/-- C8 counterexample: two consecutive `import os` statements give the
preview `"os, os"` — the names are not deduplicated as the claim states. -/
theorem import_names_no_dedup_counterexample :
    pythonCollectImportModules dupExampleSource dupImport1 [dupImport2] =
      ["os", "os"] ∧
    pythonGenerateImportPreview dupExampleSource dupImport1 [dupImport2] 2
        .Names = "os, os" ∧
    dedupFirstSeen
        (pythonCollectImportModules dupExampleSource dupImport1 [dupImport2]) =
      ["os"] ∧
    pythonGenerateImportPreview dupExampleSource dupImport1 [dupImport2] 2
        .Names ≠
      String.intercalate ", " (dedupFirstSeen
        (pythonCollectImportModules dupExampleSource dupImport1 [dupImport2])) := by
  refine ⟨rfl, rfl, rfl, by decide⟩

theorem mem_dedupFirstSeenGo {x : String} :
    ∀ (l seen : List String), x ∈ dedupFirstSeenGo seen l → x ∉ seen := by
  intro l
  induction l with
  | nil => intro seen h; simp [dedupFirstSeenGo] at h
  | cons y ys ih =>
    intro seen h
    unfold dedupFirstSeenGo at h
    by_cases hy : y ∈ seen
    · rw [if_pos hy] at h
      exact ih seen h
    · rw [if_neg hy] at h
      rcases List.mem_cons.mp h with heq | hmem
      · subst heq
        exact hy
      · intro hx
        exact ih (y :: seen) hmem (List.mem_cons_of_mem y hx)

theorem nodup_dedupFirstSeenGo :
    ∀ (l seen : List String), (dedupFirstSeenGo seen l).Nodup := by
  intro l
  induction l with
  | nil => intro seen; simp [dedupFirstSeenGo]
  | cons y ys ih =>
    intro seen
    unfold dedupFirstSeenGo
    by_cases hy : y ∈ seen
    · rw [if_pos hy]
      exact ih seen
    · rw [if_neg hy]
      refine List.Nodup.cons ?_ (ih (y :: seen))
      intro hmem
      exact mem_dedupFirstSeenGo ys (y :: seen) hmem (List.mem_cons_self y seen)

theorem sublist_dedupFirstSeenGo :
    ∀ (l seen : List String), List.Sublist (dedupFirstSeenGo seen l) l := by
  intro l
  induction l with
  | nil => intro seen; simp [dedupFirstSeenGo]
  | cons y ys ih =>
    intro seen
    unfold dedupFirstSeenGo
    by_cases hy : y ∈ seen
    · rw [if_pos hy]
      exact (ih seen).cons y
    · rw [if_neg hy]
      exact (ih (y :: seen)).cons₂ y

/-- C9.  Flow-mode control-flow keyword lists are deduplicated preserving
first-seen encounter order (the result has no duplicates and is a sublist of
the raw encounter-ordered collection), keywords inside nested function/class
bodies are not collected, and on a body holding `if`, a nested function with
a `while`, another `if` and a `for` the Python extractor yields
`["if", "for"]` and the Flow preview `"def f() -> if/for"`. -/
theorem flow_preview_dedup_first_seen :
    (∀ body : PNode, (pythonExtractControlFlow body).Nodup ∧
      List.Sublist (pythonExtractControlFlow body) (pythonCollectFlow body)) ∧
    (∀ body : PNode, (jsExtractControlFlow body).Nodup ∧
      List.Sublist (jsExtractControlFlow body) (jsCollectFlow body)) ∧
    pythonCollectFlow flowExampleBody = ["if", "if", "for"] ∧
    pythonExtractControlFlow flowExampleBody = ["if", "for"] ∧
    pythonGenerateFunctionPreview flowExampleSource flowExampleFn
        flowExampleBody .Flow = "def f() -> if/for" := by
  have hraw : pythonCollectFlow flowExampleBody = ["if", "if", "for"] := by
    simp [pythonCollectFlow, pythonCollectFlowList, flowExampleBody,
      pythonFlowKeyword, pythonFlowStop]
  have hded : pythonExtractControlFlow flowExampleBody = ["if", "for"] := by
    unfold pythonExtractControlFlow
    rw [hraw]
    rfl
  refine ⟨?_, ?_, hraw, hded, ?_⟩
  · intro body
    exact ⟨nodup_dedupFirstSeenGo _ _, sublist_dedupFirstSeenGo _ _⟩
  · intro body
    exact ⟨nodup_dedupFirstSeenGo _ _, sublist_dedupFirstSeenGo _ _⟩
  · have hred : pythonGenerateFunctionPreview flowExampleSource flowExampleFn
        flowExampleBody .Flow =
        (if (pythonExtractControlFlow flowExampleBody).isEmpty then
          getFunctionSignature flowExampleSource flowExampleFn
         else
          getFunctionSignature flowExampleSource flowExampleFn ++ " -> " ++
            String.intercalate "/" (pythonExtractControlFlow flowExampleBody)) :=
      rfl
    rw [hred, hded]
    decide


theorem pythonChainRegionsList_nil :
    pythonChainRegionsList true [] = [] :=
  pythonChainRegionsList.eq_1 true

theorem pythonChainRegionsList_cons (c : PNode) (cs : List PNode) :
    pythonChainRegionsList true (c :: cs) =
      pythonChainRegions true c ++ pythonChainRegionsList true cs :=
  pythonChainRegionsList.eq_2 true c cs

theorem pythonChainRegions_not_call {n : PNode} (h : ¬ n.kind = "call") :
    pythonChainRegions true n = pythonChainRegionsList true n.children := by
  rw [pythonChainRegions.eq_1]
  simp [h]

theorem pythonChainRegions_call {n : PNode} (h : n.kind = "call") :
    pythonChainRegions true n =
      (pythonDetectChain n).toList ++ pythonChainRegionsList true n.children := by
  rw [pythonChainRegions.eq_1]
  simp [h]

theorem chainDepth_identA : pythonChainDepth chainIdentA = 0 := by
  unfold pythonChainDepth
  decide

theorem chainDepth_inner : pythonChainDepth chainCallInner = 1 := by
  unfold pythonChainDepth
  unfold pythonChainDepth
  decide

theorem chainDepth_mid : pythonChainDepth chainCallMid = 2 := by
  unfold pythonChainDepth
  unfold pythonChainDepth
  unfold pythonChainDepth
  decide

theorem chainDepth_outer : pythonChainDepth chainCallOuter = 3 := by
  unfold pythonChainDepth
  unfold pythonChainDepth
  unfold pythonChainDepth
  unfold pythonChainDepth
  decide

theorem detectChain_inner : pythonDetectChain chainCallInner = none := by
  unfold pythonDetectChain
  rw [chainDepth_inner]
  rfl

theorem detectChain_mid : pythonDetectChain chainCallMid = none := by
  unfold pythonDetectChain
  rw [chainDepth_mid]
  rfl

theorem detectChain_outer :
    pythonDetectChain chainCallOuter =
      some ⟨.ChainedCall, 0, 15, 1, 3, 0, 4, 3,
        some "...chain (3 calls)", false, []⟩ := by
  unfold pythonDetectChain
  rw [chainDepth_outer]
  rfl

theorem chainRegions_example :
    pythonChainRegions true chainExampleModule =
      [⟨.ChainedCall, 0, 15, 1, 3, 0, 4, 3,
         some "...chain (3 calls)", false, []⟩] := by
  have hIdentA : pythonChainRegions true chainIdentA = [] := by
    rw [pythonChainRegions_not_call (by decide)]
    exact pythonChainRegionsList_nil
  have hleaf : ∀ (k : String) (f : Option String) (a b c d e g : Nat),
      ¬ k = "call" →
      pythonChainRegions true ⟨k, f, a, b, c, d, e, g, []⟩ = [] := by
    intro k f a b c d e g hk
    rw [pythonChainRegions_not_call hk]
    exact pythonChainRegionsList_nil
  have hAttrB : pythonChainRegions true chainAttrB = [] := by
    rw [pythonChainRegions_not_call (by decide), chainAttrB,
      pythonChainRegionsList_cons, pythonChainRegionsList_cons,
      pythonChainRegionsList_nil, hIdentA, hleaf _ _ _ _ _ _ _ _ (by decide)]
    rfl
  have hInner : pythonChainRegions true chainCallInner = [] := by
    rw [pythonChainRegions_call (by decide), detectChain_inner, chainCallInner,
      pythonChainRegionsList_cons, pythonChainRegionsList_cons,
      pythonChainRegionsList_nil, hAttrB, hleaf _ _ _ _ _ _ _ _ (by decide)]
    rfl
  have hAttrC : pythonChainRegions true chainAttrC = [] := by
    rw [pythonChainRegions_not_call (by decide), chainAttrC,
      pythonChainRegionsList_cons, pythonChainRegionsList_cons,
      pythonChainRegionsList_nil, hInner, hleaf _ _ _ _ _ _ _ _ (by decide)]
    rfl
  have hMid : pythonChainRegions true chainCallMid = [] := by
    rw [pythonChainRegions_call (by decide), detectChain_mid, chainCallMid,
      pythonChainRegionsList_cons, pythonChainRegionsList_cons,
      pythonChainRegionsList_nil, hAttrC, hleaf _ _ _ _ _ _ _ _ (by decide)]
    rfl
  have hAttrD : pythonChainRegions true chainAttrD = [] := by
    rw [pythonChainRegions_not_call (by decide), chainAttrD,
      pythonChainRegionsList_cons, pythonChainRegionsList_cons,
      pythonChainRegionsList_nil, hMid, hleaf _ _ _ _ _ _ _ _ (by decide)]
    rfl
  have hOuter : pythonChainRegions true chainCallOuter =
      [⟨.ChainedCall, 0, 15, 1, 3, 0, 4, 3,
         some "...chain (3 calls)", false, []⟩] := by
    rw [pythonChainRegions_call (by decide), detectChain_outer, chainCallOuter,
      pythonChainRegionsList_cons, pythonChainRegionsList_cons,
      pythonChainRegionsList_nil, hAttrD, hleaf _ _ _ _ _ _ _ _ (by decide)]
    rfl
  rw [pythonChainRegions_not_call (by decide), chainExampleModule,
    pythonChainRegionsList_cons, pythonChainRegionsList_nil]
  rw [pythonChainRegions_not_call (by decide)]
  show pythonChainRegionsList true [chainCallOuter] ++ [] = _
  rw [pythonChainRegionsList_cons, pythonChainRegionsList_nil, hOuter]
  rfl

/-- C5.  A chain of depth 2 is never folded (whatever its line span); a
chain of depth ≥ 3 spanning more than one line is folded with preview
`"...chain (N calls)"` where `N` is the walked chain depth — the preview is
fixed independently of the preview mode, which `detect_chain` does not even
receive.  On the concrete three-line `a.b().c().d()` tree the Python
traversal emits exactly one ChainedCall region, with preview
`"...chain (3 calls)"`. -/
theorem chain_threshold_and_preview :
    (∀ n : PNode, pythonChainDepth n = 2 → pythonDetectChain n = none) ∧
    (∀ n : PNode, 3 ≤ pythonChainDepth n → n.start_row < n.end_row →
      ∃ r, pythonDetectChain n = some r ∧
        r.preview = some ("...chain (" ++ toString (pythonChainDepth n) ++ " calls)") ∧
        r.fold_type = .ChainedCall) ∧
    (∀ n : PNode, jsChainDepth n = 2 → jsDetectChain n = none) ∧
    (∀ n : PNode, 3 ≤ jsChainDepth n → n.start_row < n.end_row →
      ∃ r, jsDetectChain n = some r ∧
        r.preview = some ("...chain (" ++ toString (jsChainDepth n) ++ " calls)") ∧
        r.fold_type = .ChainedCall) ∧
    pythonChainRegions true chainExampleModule =
      [⟨.ChainedCall, 0, 15, 1, 3, 0, 4, 3,
         some "...chain (3 calls)", false, []⟩] := by
  refine ⟨?_, ?_, ?_, ?_, chainRegions_example⟩
  · intro n h2
    unfold pythonDetectChain
    rw [h2]
    rfl
  · intro n h3 hrow
    unfold pythonDetectChain
    rw [if_pos (by simp [h3, hrow])]
    exact ⟨_, rfl, rfl, rfl⟩
  · intro n h2
    unfold jsDetectChain
    rw [h2]
    rfl
  · intro n h3 hrow
    unfold jsDetectChain
    rw [if_pos (by simp [h3, hrow])]
    exact ⟨_, rfl, rfl, rfl⟩

/-- Witness for `chain_threshold_and_preview`: the depth-2 sub-chain
`a.b().c()` yields no region, the depth-3 chain `a.b().c().d()` yields one
with the fixed preview. -/
theorem chain_threshold_and_preview_witness :
    pythonDetectChain chainCallMid = none ∧
    (∃ r, pythonDetectChain chainCallOuter = some r ∧
      r.preview =
        some ("...chain (" ++ toString (pythonChainDepth chainCallOuter) ++ " calls)") ∧
      r.fold_type = .ChainedCall) := by
  constructor
  · exact chain_threshold_and_preview.1 chainCallMid chainDepth_mid
  · exact chain_threshold_and_preview.2.1 chainCallOuter
      (le_of_eq chainDepth_outer.symm) (by decide)

theorem pythonCollectRun_no_imports :
    ∀ (l : List PNode) (e : PNode) (c : Nat),
      (∀ n ∈ l, isPyImport n.kind = false) →
      pythonCollectRun l e c = (e, c) := by
  intro l
  induction l with
  | nil => intro e c _; rfl
  | cons n rest ih =>
    intro e c h
    have hn := h n (List.mem_cons_self n rest)
    unfold pythonCollectRun
    rw [if_neg (by simp [hn])]
    by_cases hc : n.kind = "comment"
    · rw [if_pos hc]
      exact ih e c (fun m hm => h m (List.mem_cons_of_mem n hm))
    · rw [if_neg hc]

theorem pyIsFirst_no_imports :
    ∀ l : List PNode, (∀ n ∈ l, isPyImport n.kind = false) →
      pyIsFirst l = true := by
  intro l
  induction l with
  | nil => intro _; rfl
  | cons p ps ih =>
    intro h
    have hp := h p (List.mem_cons_self p ps)
    unfold pyIsFirst
    rw [if_neg (by simp [hp])]
    by_cases hs : pyPrevSkip p.kind = true
    · rw [if_pos hs]
      exact ih (fun m hm => h m (List.mem_cons_of_mem p hm))
    · rw [if_neg hs]

theorem pyIsFirst_comments_then_import :
    ∀ (cs : List PNode) (imp : PNode) (rest : List PNode),
      (∀ c ∈ cs, c.kind = "comment") →
      isPyImport imp.kind = true →
      pyIsFirst (cs ++ imp :: rest) = false := by
  intro cs
  induction cs with
  | nil =>
    intro imp rest _ himp
    simp only [List.nil_append]
    unfold pyIsFirst
    rw [if_pos himp]
  | cons c cs' ih =>
    intro imp rest h himp
    have hc := h c (List.mem_cons_self c cs')
    rw [List.cons_append]
    unfold pyIsFirst
    rw [if_neg (by simp [isPyImport, hc]), if_pos (by simp [pyPrevSkip, hc])]
    exact ih imp rest (fun m hm => h m (List.mem_cons_of_mem c hm)) himp

theorem pythonImportRegionsGo_no_imports (source : List Char) (cfg : ScanConfig) :
    ∀ (l : List PNode) (prevRev : List PNode),
      (∀ n ∈ l, isPyImport n.kind = false) →
      pythonImportRegionsGo source cfg prevRev l = [] := by
  intro l
  induction l with
  | nil => intro prevRev _; rfl
  | cons n rest ih =>
    intro prevRev h
    have hn := h n (List.mem_cons_self n rest)
    unfold pythonImportRegionsGo
    rw [if_neg (by simp [hn])]
    exact ih (n :: prevRev) (fun m hm => h m (List.mem_cons_of_mem n hm))

theorem pythonImportRegionsGo_blocked (source : List Char) (cfg : ScanConfig)
    (post : List PNode) (hpost : ∀ n ∈ post, isPyImport n.kind = false) :
    ∀ (l : List PNode) (prevRev : List PNode),
      (∀ n ∈ l, n.kind = "comment" ∨ isPyImport n.kind = true) →
      pyIsFirst prevRev = false →
      pythonImportRegionsGo source cfg prevRev (l ++ post) = [] := by
  intro l
  induction l with
  | nil =>
    intro prevRev _ _
    exact pythonImportRegionsGo_no_imports source cfg post prevRev hpost
  | cons n rest ih =>
    intro prevRev h hfirst
    have hn := h n (List.mem_cons_self n rest)
    rw [List.cons_append]
    unfold pythonImportRegionsGo
    have hrec : pythonImportRegionsGo source cfg (n :: prevRev) (rest ++ post) = [] := by
      apply ih (n :: prevRev) (fun m hm => h m (List.mem_cons_of_mem n hm))
      rcases hn with hcom | himp
      · unfold pyIsFirst
        rw [if_neg (by simp [isPyImport, hcom]), if_pos (by simp [pyPrevSkip, hcom])]
        exact hfirst
      · unfold pyIsFirst
        rw [if_pos himp]
    rcases hn with hcom | himp
    · rw [if_neg (by simp [isPyImport, hcom])]
      exact hrec
    · rw [if_neg (by simp [himp, hfirst])]
      exact hrec

theorem pythonImportRegionsGo_skip_pre (source : List Char) (cfg : ScanConfig)
    (rest : List PNode) :
    ∀ (pre : List PNode) (prevRev : List PNode),
      (∀ n ∈ pre, isPyImport n.kind = false) →
      pythonImportRegionsGo source cfg prevRev (pre ++ rest) =
        pythonImportRegionsGo source cfg (pre.reverse ++ prevRev) rest := by
  intro pre
  induction pre with
  | nil => intro prevRev _; simp
  | cons n pre' ih =>
    intro prevRev h
    have hn := h n (List.mem_cons_self n pre')
    rw [List.cons_append]
    have step : pythonImportRegionsGo source cfg prevRev (n :: (pre' ++ rest)) =
        (if (isPyImport n.kind && cfg.fold_filter.fold_imports &&
             pyIsFirst prevRev) = true
         then (pythonCollectImportBlock source cfg n (pre' ++ rest)).toList
         else []) ++
          pythonImportRegionsGo source cfg (n :: prevRev) (pre' ++ rest) := rfl
    rw [step, if_neg (by simp [hn])]
    rw [List.nil_append]
    rw [ih (n :: prevRev) (fun m hm => h m (List.mem_cons_of_mem n hm))]
    simp [List.append_assoc]

theorem lastImport_cons (e : PNode) (q : List PNode × PNode)
    (mids : List (List PNode × PNode)) :
    lastImport e (q :: mids) = lastImport q.2 mids := by
  cases mids with
  | nil => rfl
  | cons q' mids' =>
    unfold lastImport
    rw [List.getLast?_cons_cons]
    cases h : (q' :: mids').getLast? with
    | none => exact absurd (List.getLast?_eq_none_iff.mp h) (List.cons_ne_nil q' mids')
    | some p => rfl

theorem pythonCollectRun_comments :
    ∀ (cs : List PNode) (rest : List PNode) (e : PNode) (c : Nat),
      (∀ x ∈ cs, x.kind = "comment") →
      pythonCollectRun (cs ++ rest) e c = pythonCollectRun rest e c := by
  intro cs
  induction cs with
  | nil => intro rest e c _; rfl
  | cons x cs' ih =>
    intro rest e c h
    have hx := h x (List.mem_cons_self x cs')
    rw [List.cons_append]
    have step : pythonCollectRun (x :: (cs' ++ rest)) e c =
        if isPyImport x.kind = true then pythonCollectRun (cs' ++ rest) x (c + 1)
        else if x.kind = "comment" then pythonCollectRun (cs' ++ rest) e c
        else (e, c) := rfl
    rw [step, if_neg (by simp [isPyImport, hx]), if_pos hx]
    exact ih rest e c (fun m hm => h m (List.mem_cons_of_mem x hm))

theorem pythonCollectRun_run (post : List PNode)
    (hpost : ∀ n ∈ post, isPyImport n.kind = false) :
    ∀ (mids : List (List PNode × PNode)) (e : PNode) (c : Nat),
      (∀ p ∈ mids, (∀ x ∈ p.1, x.kind = "comment") ∧ isPyImport p.2.kind = true) →
      pythonCollectRun (runFlat mids ++ post) e c =
        (lastImport e mids, c + mids.length) := by
  intro mids
  induction mids with
  | nil =>
    intro e c _
    simp [runFlat, lastImport]
    exact pythonCollectRun_no_imports post e c hpost
  | cons q mids' ih =>
    intro e c h
    have hq := h q (List.mem_cons_self q mids')
    have hflat : runFlat (q :: mids') = q.1 ++ (q.2 :: runFlat mids') := by
      simp [runFlat]
    rw [hflat, List.append_assoc, pythonCollectRun_comments q.1 _ e c hq.1]
    rw [List.cons_append]
    have step : pythonCollectRun (q.2 :: (runFlat mids' ++ post)) e c =
        if isPyImport q.2.kind = true then
          pythonCollectRun (runFlat mids' ++ post) q.2 (c + 1)
        else if q.2.kind = "comment" then
          pythonCollectRun (runFlat mids' ++ post) e c
        else (e, c) := rfl
    rw [step, if_pos hq.2]
    rw [ih q.2 (c + 1) (fun p hp => h p (List.mem_cons_of_mem q hp))]
    rw [lastImport_cons]
    simp only [List.length_cons]
    congr 1
    omega

theorem jsCollectRun_no_imports :
    ∀ (l : List PNode) (e : PNode) (c : Nat),
      (∀ n ∈ l, ¬ n.kind = "import_statement") →
      jsCollectRun l e c = (e, c) := by
  intro l
  induction l with
  | nil => intro e c _; rfl
  | cons n rest ih =>
    intro e c h
    have hn := h n (List.mem_cons_self n rest)
    unfold jsCollectRun
    rw [if_neg hn]
    by_cases hc : n.kind = "comment"
    · rw [if_pos hc]
      exact ih e c (fun m hm => h m (List.mem_cons_of_mem n hm))
    · rw [if_neg hc]

theorem jsCollectRun_comments :
    ∀ (cs : List PNode) (rest : List PNode) (e : PNode) (c : Nat),
      (∀ x ∈ cs, x.kind = "comment") →
      jsCollectRun (cs ++ rest) e c = jsCollectRun rest e c := by
  intro cs
  induction cs with
  | nil => intro rest e c _; rfl
  | cons x cs' ih =>
    intro rest e c h
    have hx := h x (List.mem_cons_self x cs')
    rw [List.cons_append]
    have step : jsCollectRun (x :: (cs' ++ rest)) e c =
        if x.kind = "import_statement" then jsCollectRun (cs' ++ rest) x (c + 1)
        else if x.kind = "comment" then jsCollectRun (cs' ++ rest) e c
        else (e, c) := rfl
    rw [step, if_neg (by simp [hx]), if_pos hx]
    exact ih rest e c (fun m hm => h m (List.mem_cons_of_mem x hm))

theorem jsCollectRun_run (post : List PNode)
    (hpost : ∀ n ∈ post, ¬ n.kind = "import_statement") :
    ∀ (mids : List (List PNode × PNode)) (e : PNode) (c : Nat),
      (∀ p ∈ mids, (∀ x ∈ p.1, x.kind = "comment") ∧
        p.2.kind = "import_statement") →
      jsCollectRun (runFlat mids ++ post) e c =
        (lastImport e mids, c + mids.length) := by
  intro mids
  induction mids with
  | nil =>
    intro e c _
    simp [runFlat, lastImport]
    exact jsCollectRun_no_imports post e c hpost
  | cons q mids' ih =>
    intro e c h
    have hq := h q (List.mem_cons_self q mids')
    have hflat : runFlat (q :: mids') = q.1 ++ (q.2 :: runFlat mids') := by
      simp [runFlat]
    rw [hflat, List.append_assoc, jsCollectRun_comments q.1 _ e c hq.1]
    rw [List.cons_append]
    have step : jsCollectRun (q.2 :: (runFlat mids' ++ post)) e c =
        if q.2.kind = "import_statement" then
          jsCollectRun (runFlat mids' ++ post) q.2 (c + 1)
        else if q.2.kind = "comment" then
          jsCollectRun (runFlat mids' ++ post) e c
        else (e, c) := rfl
    rw [step, if_pos hq.2]
    rw [ih q.2 (c + 1) (fun p hp => h p (List.mem_cons_of_mem q hp))]
    rw [lastImport_cons]
    simp only [List.length_cons]
    congr 1
    omega

theorem jsImportRegionsGo_no_imports (source : List Char) (cfg : ScanConfig) :
    ∀ (l : List PNode) (prevRev : List PNode),
      (∀ n ∈ l, ¬ n.kind = "import_statement") →
      jsImportRegionsGo source cfg prevRev l = [] := by
  intro l
  induction l with
  | nil => intro prevRev _; rfl
  | cons n rest ih =>
    intro prevRev h
    have hn := h n (List.mem_cons_self n rest)
    unfold jsImportRegionsGo
    rw [if_neg (by simp [hn])]
    exact ih (n :: prevRev) (fun m hm => h m (List.mem_cons_of_mem n hm))

theorem jsImportRegionsGo_blocked (source : List Char) (cfg : ScanConfig)
    (post : List PNode) (hpost : ∀ n ∈ post, ¬ n.kind = "import_statement") :
    ∀ (l : List PNode) (prevRev : List PNode),
      (∀ n ∈ l, n.kind = "comment" ∨ n.kind = "import_statement") →
      jsIsFirst prevRev = false →
      jsImportRegionsGo source cfg prevRev (l ++ post) = [] := by
  intro l
  induction l with
  | nil =>
    intro prevRev _ _
    exact jsImportRegionsGo_no_imports source cfg post prevRev hpost
  | cons n rest ih =>
    intro prevRev h hfirst
    have hn := h n (List.mem_cons_self n rest)
    rw [List.cons_append]
    have step : jsImportRegionsGo source cfg prevRev (n :: (rest ++ post)) =
        (if (n.kind = "import_statement" && cfg.fold_filter.fold_imports &&
             jsIsFirst prevRev) = true
         then (jsCollectImportBlock source cfg n (rest ++ post)).toList
         else []) ++
          jsImportRegionsGo source cfg (n :: prevRev) (rest ++ post) := rfl
    have hfirst' : jsIsFirst (n :: prevRev) = false := by
      unfold jsIsFirst
      rcases hn with hcom | himp
      · simp [hcom]
      · simp [himp]
    have hrec := ih (n :: prevRev)
      (fun m hm => h m (List.mem_cons_of_mem n hm)) hfirst'
    rcases hn with hcom | himp
    · rw [step, if_neg (by simp [hcom])]
      rw [hrec]
      rfl
    · rw [step, if_neg (by simp [hfirst])]
      rw [hrec]
      rfl

theorem jsImportRegionsGo_skip_pre (source : List Char) (cfg : ScanConfig)
    (rest : List PNode) :
    ∀ (pre : List PNode) (prevRev : List PNode),
      (∀ n ∈ pre, ¬ n.kind = "import_statement") →
      jsImportRegionsGo source cfg prevRev (pre ++ rest) =
        jsImportRegionsGo source cfg (pre.reverse ++ prevRev) rest := by
  intro pre
  induction pre with
  | nil => intro prevRev _; simp
  | cons n pre' ih =>
    intro prevRev h
    have hn := h n (List.mem_cons_self n pre')
    rw [List.cons_append]
    have step : jsImportRegionsGo source cfg prevRev (n :: (pre' ++ rest)) =
        (if (n.kind = "import_statement" && cfg.fold_filter.fold_imports &&
             jsIsFirst prevRev) = true
         then (jsCollectImportBlock source cfg n (pre' ++ rest)).toList
         else []) ++
          jsImportRegionsGo source cfg (n :: prevRev) (pre' ++ rest) := rfl
    rw [step, if_neg (by simp [hn])]
    rw [List.nil_append]
    rw [ih (n :: prevRev) (fun m hm => h m (List.mem_cons_of_mem n hm))]
    simp [List.append_assoc]

theorem jsIsFirst_of_pre (pre : List PNode)
    (himp : ∀ n ∈ pre, ¬ n.kind = "import_statement")
    (hcom : ∀ p ∈ pre.getLast?, ¬ p.kind = "comment") :
    jsIsFirst pre.reverse = true := by
  cases hp : pre.reverse with
  | nil => rfl
  | cons p t =>
    have hmem : p ∈ pre := by
      have : p ∈ pre.reverse := hp ▸ List.mem_cons_self p t
      exact List.mem_reverse.mp this
    have hlast : pre.getLast? = some p := by
      rw [← List.head?_reverse, hp]
      rfl
    have h1 := himp p hmem
    have h2 := hcom p (by rw [hlast]; rfl)
    unfold jsIsFirst
    simp [h1, h2]

theorem runFlat_mem_py {mids : List (List PNode × PNode)}
    (hshape : ∀ p ∈ mids, (∀ x ∈ p.1, x.kind = "comment") ∧
      isPyImport p.2.kind = true) :
    ∀ n ∈ runFlat mids, n.kind = "comment" ∨ isPyImport n.kind = true := by
  intro n hn
  obtain ⟨p, hp, hnp⟩ := List.mem_flatMap.mp hn
  rcases List.mem_append.mp hnp with hl | hr
  · exact Or.inl ((hshape p hp).1 n hl)
  · rw [List.mem_singleton.mp hr]
    exact Or.inr (hshape p hp).2

theorem runFlat_mem_js {mids : List (List PNode × PNode)}
    (hshape : ∀ p ∈ mids, (∀ x ∈ p.1, x.kind = "comment") ∧
      p.2.kind = "import_statement") :
    ∀ n ∈ runFlat mids, n.kind = "comment" ∨ n.kind = "import_statement" := by
  intro n hn
  obtain ⟨p, hp, hnp⟩ := List.mem_flatMap.mp hn
  rcases List.mem_append.mp hnp with hl | hr
  · exact Or.inl ((hshape p hp).1 n hl)
  · rw [List.mem_singleton.mp hr]
    exact Or.inr (hshape p hp).2

theorem pythonImportRegionsGo_single (source : List Char) (cfg : ScanConfig) :
    ∀ (sibs : List PNode) (prevRev : List PNode),
      pyImportCount sibs ≤ 1 →
      pythonImportRegionsGo source cfg prevRev sibs = [] := by
  intro sibs
  induction sibs with
  | nil => intro prevRev _; rfl
  | cons n rest ih =>
    intro prevRev hcount
    have step : pythonImportRegionsGo source cfg prevRev (n :: rest) =
        (if (isPyImport n.kind && cfg.fold_filter.fold_imports &&
             pyIsFirst prevRev) = true
         then (pythonCollectImportBlock source cfg n rest).toList
         else []) ++
          pythonImportRegionsGo source cfg (n :: prevRev) rest := rfl
    by_cases hn : isPyImport n.kind = true
    · have hcnt : pyImportCount (n :: rest) = pyImportCount rest + 1 := by
        simp [pyImportCount, List.filter_cons, hn]
      have hrest0 : pyImportCount rest = 0 := by omega
      have hrestfree : ∀ m ∈ rest, isPyImport m.kind = false := by
        intro m hm
        by_contra hmm
        have hmt : isPyImport m.kind = true := Bool.ne_false_iff.mp hmm
        have hfil : (rest.filter (fun n => isPyImport n.kind)).length = 0 := hrest0
        have : m ∈ rest.filter (fun n => isPyImport n.kind) :=
          List.mem_filter.mpr ⟨hm, hmt⟩
        rw [List.length_eq_zero.mp hfil] at this
        exact absurd this (List.not_mem_nil m)
      have hblock : pythonCollectImportBlock source cfg n rest = none := by
        simp only [pythonCollectImportBlock]
        rw [pythonCollectRun_no_imports rest n 1 hrestfree]
        rfl
      rw [step, hblock]
      rw [ih (n :: prevRev) (by omega)]
      simp
    · have hnf : isPyImport n.kind = false := Bool.eq_false_iff.mpr hn
      have hcnt : pyImportCount (n :: rest) = pyImportCount rest := by
        simp [pyImportCount, List.filter_cons, hnf]
      rw [step, if_neg (by simp [hnf])]
      rw [List.nil_append]
      exact ih (n :: prevRev) (by omega)

theorem jsImportRegionsGo_single (source : List Char) (cfg : ScanConfig) :
    ∀ (sibs : List PNode) (prevRev : List PNode),
      jsImportCount sibs ≤ 1 →
      jsImportRegionsGo source cfg prevRev sibs = [] := by
  intro sibs
  induction sibs with
  | nil => intro prevRev _; rfl
  | cons n rest ih =>
    intro prevRev hcount
    have step : jsImportRegionsGo source cfg prevRev (n :: rest) =
        (if (n.kind = "import_statement" && cfg.fold_filter.fold_imports &&
             jsIsFirst prevRev) = true
         then (jsCollectImportBlock source cfg n rest).toList
         else []) ++
          jsImportRegionsGo source cfg (n :: prevRev) rest := rfl
    by_cases hn : n.kind = "import_statement"
    · have hcnt : jsImportCount (n :: rest) = jsImportCount rest + 1 := by
        simp [jsImportCount, List.filter_cons, hn]
      have hrest0 : jsImportCount rest = 0 := by omega
      have hrestfree : ∀ m ∈ rest, ¬ m.kind = "import_statement" := by
        intro m hm hmk
        have hfil : (rest.filter (fun n => n.kind = "import_statement")).length = 0 :=
          hrest0
        have : m ∈ rest.filter (fun n => n.kind = "import_statement") :=
          List.mem_filter.mpr ⟨hm, by simp [hmk]⟩
        rw [List.length_eq_zero.mp hfil] at this
        exact absurd this (List.not_mem_nil m)
      have hblock : jsCollectImportBlock source cfg n rest = none := by
        simp only [jsCollectImportBlock]
        rw [jsCollectRun_no_imports rest n 1 hrestfree]
        rfl
      rw [step, hblock]
      rw [ih (n :: prevRev) (by omega)]
      simp
    · have hcnt : jsImportCount (n :: rest) = jsImportCount rest := by
        simp [jsImportCount, List.filter_cons, hn]
      rw [step, if_neg (by simp [hn])]
      rw [List.nil_append]
      exact ih (n :: prevRev) (by omega)

/-- C4 (amended).  At most one import statement yields zero Import regions
(both parsers).  A maximal run of two or more imports (optionally
interleaved with comments) yields exactly one Import region spanning the
first import's start byte to the last import's end byte — for Python
unconditionally; for JavaScript only when the run's first import is not
immediately preceded by a comment sibling, because the JavaScript first-import
check does not step backwards over comments (see
`js_import_run_after_comment_counterexample`). -/
theorem import_merge_threshold_amended :
    (∀ (source : List Char) (cfg : ScanConfig) (sibs : List PNode),
      pyImportCount sibs ≤ 1 → pythonImportRegions source cfg sibs = []) ∧
    (∀ (source : List Char) (cfg : ScanConfig) (pre : List PNode) (first : PNode)
        (mids : List (List PNode × PNode)) (post : List PNode),
      cfg.fold_filter.fold_imports = true →
      (∀ n ∈ pre, isPyImport n.kind = false) →
      (∀ n ∈ post, isPyImport n.kind = false) →
      isPyImport first.kind = true →
      mids ≠ [] →
      (∀ p ∈ mids, (∀ x ∈ p.1, x.kind = "comment") ∧ isPyImport p.2.kind = true) →
      ∃ r, pythonImportRegions source cfg
          (pre ++ (first :: runFlat mids) ++ post) = [r] ∧
        r.fold_type = .Import ∧
        r.start_byte = first.start_byte ∧
        r.end_byte = (lastImport first mids).end_byte) ∧
    (∀ (source : List Char) (cfg : ScanConfig) (sibs : List PNode),
      jsImportCount sibs ≤ 1 → jsImportRegions source cfg sibs = []) ∧
    (∀ (source : List Char) (cfg : ScanConfig) (pre : List PNode) (first : PNode)
        (mids : List (List PNode × PNode)) (post : List PNode),
      cfg.fold_filter.fold_imports = true →
      (∀ n ∈ pre, ¬ n.kind = "import_statement") →
      (∀ n ∈ post, ¬ n.kind = "import_statement") →
      first.kind = "import_statement" →
      (∀ p ∈ pre.getLast?, ¬ p.kind = "comment") →
      mids ≠ [] →
      (∀ p ∈ mids, (∀ x ∈ p.1, x.kind = "comment") ∧
        p.2.kind = "import_statement") →
      ∃ r, jsImportRegions source cfg
          (pre ++ (first :: runFlat mids) ++ post) = [r] ∧
        r.fold_type = .Import ∧
        r.start_byte = first.start_byte ∧
        r.end_byte = (lastImport first mids).end_byte) := by
  refine ⟨?_, ?_, ?_, ?_⟩
  · intro source cfg sibs h
    exact pythonImportRegionsGo_single source cfg sibs [] h
  · intro source cfg pre first mids post hfold hpre hpost hfirst hne hshape
    have hlen : 0 < mids.length := List.length_pos.mpr hne
    have hrun := pythonCollectRun_run post hpost mids first 1 hshape
    refine ⟨{ FoldRegion.new .Import first.start_byte
        (lastImport first mids).end_byte (first.start_row + 1)
        ((lastImport first mids).end_row + 1) first.start_col
        (lastImport first mids).end_col with
        preview := some (pythonGenerateImportPreview source first
          (runFlat mids ++ post) (1 + mids.length) cfg.preview_mode) },
      ?_, rfl, rfl, rfl⟩
    unfold pythonImportRegions
    rw [List.append_assoc, List.cons_append]
    rw [pythonImportRegionsGo_skip_pre source cfg _ pre [] hpre]
    have hIsFirst : pyIsFirst pre.reverse = true :=
      pyIsFirst_no_imports pre.reverse
        (fun n hn => hpre n (List.mem_reverse.mp hn))
    have step : pythonImportRegionsGo source cfg (pre.reverse ++ [])
        (first :: (runFlat mids ++ post)) =
        (if (isPyImport first.kind && cfg.fold_filter.fold_imports &&
             pyIsFirst (pre.reverse ++ [])) = true
         then (pythonCollectImportBlock source cfg first
           (runFlat mids ++ post)).toList
         else []) ++
          pythonImportRegionsGo source cfg (first :: (pre.reverse ++ []))
            (runFlat mids ++ post) := rfl
    rw [step, if_pos (by simp [hfirst, hfold, hIsFirst])]
    have hblock : pythonCollectImportBlock source cfg first
        (runFlat mids ++ post) =
        some { FoldRegion.new .Import first.start_byte
          (lastImport first mids).end_byte (first.start_row + 1)
          ((lastImport first mids).end_row + 1) first.start_col
          (lastImport first mids).end_col with
          preview := some (pythonGenerateImportPreview source first
            (runFlat mids ++ post) (1 + mids.length) cfg.preview_mode) } := by
      simp only [pythonCollectImportBlock]
      rw [hrun]
      rw [if_pos (by simp; omega)]
    rw [hblock]
    have htail : pythonImportRegionsGo source cfg (first :: (pre.reverse ++ []))
        (runFlat mids ++ post) = [] := by
      apply pythonImportRegionsGo_blocked source cfg post hpost (runFlat mids)
        (first :: (pre.reverse ++ [])) (runFlat_mem_py hshape)
      unfold pyIsFirst
      rw [if_pos hfirst]
    rw [htail]
    rfl
  · intro source cfg sibs h
    exact jsImportRegionsGo_single source cfg sibs [] h
  · intro source cfg pre first mids post hfold hpre hpost hfirst hprelast hne hshape
    have hlen : 0 < mids.length := List.length_pos.mpr hne
    have hrun := jsCollectRun_run post hpost mids first 1 hshape
    refine ⟨{ FoldRegion.new .Import first.start_byte
        (lastImport first mids).end_byte (first.start_row + 1)
        ((lastImport first mids).end_row + 1) first.start_col
        (lastImport first mids).end_col with
        preview := some (jsGenerateImportPreview source first
          (runFlat mids ++ post) (1 + mids.length) cfg.preview_mode) },
      ?_, rfl, rfl, rfl⟩
    unfold jsImportRegions
    rw [List.append_assoc, List.cons_append]
    rw [jsImportRegionsGo_skip_pre source cfg _ pre [] hpre]
    have hIsFirst : jsIsFirst pre.reverse = true :=
      jsIsFirst_of_pre pre hpre hprelast
    have step : jsImportRegionsGo source cfg (pre.reverse ++ [])
        (first :: (runFlat mids ++ post)) =
        (if (first.kind = "import_statement" && cfg.fold_filter.fold_imports &&
             jsIsFirst (pre.reverse ++ [])) = true
         then (jsCollectImportBlock source cfg first
           (runFlat mids ++ post)).toList
         else []) ++
          jsImportRegionsGo source cfg (first :: (pre.reverse ++ []))
            (runFlat mids ++ post) := rfl
    rw [step, if_pos (by simp [hfirst, hfold, hIsFirst])]
    have hblock : jsCollectImportBlock source cfg first
        (runFlat mids ++ post) =
        some { FoldRegion.new .Import first.start_byte
          (lastImport first mids).end_byte (first.start_row + 1)
          ((lastImport first mids).end_row + 1) first.start_col
          (lastImport first mids).end_col with
          preview := some (jsGenerateImportPreview source first
            (runFlat mids ++ post) (1 + mids.length) cfg.preview_mode) } := by
      simp only [jsCollectImportBlock]
      rw [hrun]
      rw [if_pos (by simp; omega)]
    rw [hblock]
    have htail : jsImportRegionsGo source cfg (first :: (pre.reverse ++ []))
        (runFlat mids ++ post) = [] := by
      apply jsImportRegionsGo_blocked source cfg post hpost (runFlat mids)
        (first :: (pre.reverse ++ [])) (runFlat_mem_js hshape)
      unfold jsIsFirst
      simp [hfirst]
    rw [htail]
    rfl

/-- Witness for `import_merge_threshold_amended`: a single `import os` yields
no region, and two adjacent imports yield exactly one region spanning both,
in both parsers. -/
theorem import_merge_threshold_amended_witness :
    pythonImportRegions [] ⟨2, FoldFilter.all, .Minimal⟩
        [⟨"import_statement", none, 0, 9, 0, 0, 0, 9, []⟩] = [] ∧
    (∃ r, pythonImportRegions [] ⟨2, FoldFilter.all, .Minimal⟩
        ([] ++ (⟨"import_statement", none, 0, 9, 0, 0, 0, 9, []⟩ ::
          runFlat [([], ⟨"import_statement", none, 10, 19, 1, 1, 0, 9, []⟩)]) ++ []) =
        [r] ∧
      r.fold_type = .Import ∧
      r.start_byte = 0 ∧
      r.end_byte = 19) ∧
    jsImportRegions [] ⟨2, FoldFilter.all, .Minimal⟩
        [⟨"import_statement", none, 0, 9, 0, 0, 0, 9, []⟩] = [] ∧
    (∃ r, jsImportRegions [] ⟨2, FoldFilter.all, .Minimal⟩
        ([] ++ (⟨"import_statement", none, 0, 9, 0, 0, 0, 9, []⟩ ::
          runFlat [([], ⟨"import_statement", none, 10, 19, 1, 1, 0, 9, []⟩)]) ++ []) =
        [r] ∧
      r.fold_type = .Import ∧
      r.start_byte = 0 ∧
      r.end_byte = 19) := by
  refine ⟨?_, ?_, ?_, ?_⟩
  · exact import_merge_threshold_amended.1 [] ⟨2, FoldFilter.all, .Minimal⟩
      [⟨"import_statement", none, 0, 9, 0, 0, 0, 9, []⟩] (by decide)
  · exact import_merge_threshold_amended.2.1 [] ⟨2, FoldFilter.all, .Minimal⟩
      [] ⟨"import_statement", none, 0, 9, 0, 0, 0, 9, []⟩
      [([], ⟨"import_statement", none, 10, 19, 1, 1, 0, 9, []⟩)] []
      rfl (by simp) (by simp) (by decide) (by simp)
      (by intro p hp; rw [List.mem_singleton.mp hp]; exact ⟨by simp, by decide⟩)
  · exact import_merge_threshold_amended.2.2.1 [] ⟨2, FoldFilter.all, .Minimal⟩
      [⟨"import_statement", none, 0, 9, 0, 0, 0, 9, []⟩] (by decide)
  · exact import_merge_threshold_amended.2.2.2 [] ⟨2, FoldFilter.all, .Minimal⟩
      [] ⟨"import_statement", none, 0, 9, 0, 0, 0, 9, []⟩
      [([], ⟨"import_statement", none, 10, 19, 1, 1, 0, 9, []⟩)] []
      rfl (by simp) (by simp) rfl (by simp) (by simp)
      (by intro p hp; rw [List.mem_singleton.mp hp]; exact ⟨by simp, rfl⟩)

/-- C4 counterexample: in JavaScript a run of two imports immediately
preceded by a comment sibling yields zero Import regions, although the claim
requires exactly one. -/
theorem js_import_run_after_comment_counterexample :
    jsImportRegions [] ⟨2, FoldFilter.all, .Minimal⟩
        [⟨"comment", none, 0, 10, 0, 0, 0, 10, []⟩,
         ⟨"import_statement", none, 11, 30, 1, 1, 0, 19, []⟩,
         ⟨"import_statement", none, 31, 50, 2, 2, 0, 19, []⟩] = [] ∧
    jsImportCount
        [⟨"comment", none, 0, 10, 0, 0, 0, 10, []⟩,
         ⟨"import_statement", none, 11, 30, 1, 1, 0, 19, []⟩,
         ⟨"import_statement", none, 31, 50, 2, 2, 0, 19, []⟩] = 2 := by
  exact ⟨rfl, rfl⟩
